import Mathlib

/-!
# Cosmic-chat client: protocol engine of `static/cosmic.js`

A shallow embedding of the browser client in `src/static/cosmic.js`.

* Byte buffers (`Uint8Array`, `ArrayBuffer`) are lists of `Fin 256`.
* Strings are Lean strings, so every string of the model is well-formed Unicode
  (no unpaired surrogate).
* Values read from a parsed wire object are `JVal`s, because `JSON.parse` gives no
  guarantee about the presence or the type of a field.
* The browser is a `World`: the `state` object and the `ws` variable of the script,
  the part of the DOM the script writes to, the pending timers and a clock.
* Platform facilities that the script only calls are modelled from their standards:
  `btoa`/`atob` (HTML, forgiving-base64), `TextEncoder`/`TextDecoder` (Encoding
  Standard, UTF-8), `setTimeout`/`clearTimeout` (exact, discrete time in ms),
  `WebSocket.send`.  PBKDF2 and AES-GCM are parameters (`Subtle`).
* Random draws and the wall clock (`crypto.getRandomValues`, `crypto.randomUUID`,
  `tsNow`) are arguments of the operation that draws them.
* An `async` handler is run to completion in one step.
Left out, as the script never reads them back: scrolling, focus, the theme toggle,
the invite link, the notification permission prompt and `stars.js`.
-/

namespace CosmicChat

/-! ## Bytes, characters and the text codecs -/

/-- One element of a `Uint8Array`. -/
abbrev Byte := Fin 256

/-- Storing a number into a `Uint8Array` element keeps it modulo 256. -/
def toByte (n : Nat) : Byte := Fin.ofNat n

/-- `String.fromCharCode(...buf)` for a byte buffer: one code unit per byte. -/
def fromCharCode (buf : List Byte) : String :=
  String.mk (buf.map fun b => Char.ofNat b.val)

/-- `Uint8Array.from(s, c => c.charCodeAt(0))`. -/
def charCodes (s : String) : List Byte :=
  s.data.map fun c => toByte c.toNat

/-- UTF-8 bytes of one scalar value. -/
def utf8EncodeCodePoint (c : Nat) : List Byte :=
  if c < 0x80 then [toByte c]
  else if c < 0x800 then [toByte (0xC0 + c / 64), toByte (0x80 + c % 64)]
  else if c < 0x10000 then
    [toByte (0xE0 + c / 4096), toByte (0x80 + c / 64 % 64), toByte (0x80 + c % 64)]
  else
    [toByte (0xF0 + c / 262144), toByte (0x80 + c / 4096 % 64),
     toByte (0x80 + c / 64 % 64), toByte (0x80 + c % 64)]

/-- `new TextEncoder().encode(s)`. -/
def textEncode (s : String) : List Byte :=
  s.data.flatMap fun c => utf8EncodeCodePoint c.toNat

/-- State of the UTF-8 decoder of the Encoding Standard. -/
structure Utf8Decoder where
  codePoint : Nat := 0
  bytesSeen : Nat := 0
  bytesNeeded : Nat := 0
  lower : Nat := 0x80
  upper : Nat := 0xBF
deriving DecidableEq, Repr

/-- Decoder handler for a byte that arrives while no sequence is open. -/
def utf8Lead (b : Nat) : Utf8Decoder × List Nat :=
  if b ≤ 0x7F then ({}, [b])
  else if 0xC2 ≤ b ∧ b ≤ 0xDF then
    ({ codePoint := b % 32, bytesNeeded := 1 }, [])
  else if 0xE0 ≤ b ∧ b ≤ 0xEF then
    ({ codePoint := b % 16, bytesNeeded := 2,
       lower := if b = 0xE0 then 0xA0 else 0x80,
       upper := if b = 0xED then 0x9F else 0xBF }, [])
  else if 0xF0 ≤ b ∧ b ≤ 0xF4 then
    ({ codePoint := b % 8, bytesNeeded := 3,
       lower := if b = 0xF0 then 0x90 else 0x80,
       upper := if b = 0xF4 then 0x8F else 0xBF }, [])
  else ({}, [0xFFFD])

/-- Decoder handler: the new state and the code points emitted for one byte. A byte
out of range closes the open sequence with U+FFFD and is then handled again. -/
def utf8Step (d : Utf8Decoder) (b : Nat) : Utf8Decoder × List Nat :=
  if d.bytesNeeded = 0 then utf8Lead b
  else if b < d.lower ∨ d.upper < b then
    ((utf8Lead b).1, 0xFFFD :: (utf8Lead b).2)
  else if d.bytesSeen + 1 = d.bytesNeeded then
    ({}, [d.codePoint * 64 + b % 64])
  else
    ({ codePoint := d.codePoint * 64 + b % 64, bytesSeen := d.bytesSeen + 1,
       bytesNeeded := d.bytesNeeded }, [])

/-- Run the decoder over a buffer; an unfinished sequence at the end gives U+FFFD. -/
def utf8DecodeLoop : Utf8Decoder → List Byte → List Nat
  | d, [] => if d.bytesNeeded = 0 then [] else [0xFFFD]
  | d, b :: bs => (utf8Step d b.val).2 ++ utf8DecodeLoop (utf8Step d b.val).1 bs

/-- Output stage of `TextDecoder` with `ignoreBOM` false: a leading U+FEFF is removed. -/
def dropBOM : List Nat → List Nat
  | 0xFEFF :: rest => rest
  | cps => cps

/-- `new TextDecoder().decode(bytes)`: UTF-8, not fatal, `ignoreBOM` false. -/
def textDecode (bytes : List Byte) : String :=
  String.mk ((dropBOM (utf8DecodeLoop {} bytes)).map Char.ofNat)

/-- The base64 alphabet, by index. -/
def b64Char (i : Nat) : Char :=
  if i < 26 then Char.ofNat (65 + i)
  else if i < 52 then Char.ofNat (71 + i)
  else if i < 62 then Char.ofNat (i - 4)
  else if i = 62 then '+' else '/'

/-- Index of a character in the base64 alphabet. -/
def b64Index (c : Char) : Option Nat :=
  if 65 ≤ c.toNat ∧ c.toNat ≤ 90 then some (c.toNat - 65)
  else if 97 ≤ c.toNat ∧ c.toNat ≤ 122 then some (c.toNat - 71)
  else if 48 ≤ c.toNat ∧ c.toNat ≤ 57 then some (c.toNat + 4)
  else if c = '+' then some 62
  else if c = '/' then some 63
  else none

/-- Base64 of a byte list, three bytes to four characters, padded with `=`. -/
def encodeTriples : List Nat → List Char
  | a :: b :: c :: rest =>
      b64Char (a / 4) :: b64Char (a % 4 * 16 + b / 16) :: b64Char (b % 16 * 4 + c / 64)
        :: b64Char (c % 64) :: encodeTriples rest
  | [a, b] => [b64Char (a / 4), b64Char (a % 4 * 16 + b / 16), b64Char (b % 16 * 4), '=']
  | [a] => [b64Char (a / 4), b64Char (a % 4 * 16), '=', '=']
  | [] => []

/-- The sextets of a byte list, without padding: what `encodeTriples` writes before
the `=` signs. -/
def sextets : List Nat → List Nat
  | a :: b :: c :: rest =>
      a / 4 :: (a % 4 * 16 + b / 16) :: (b % 16 * 4 + c / 64) :: c % 64 :: sextets rest
  | [a, b] => [a / 4, a % 4 * 16 + b / 16, b % 16 * 4]
  | [a] => [a / 4, a % 4 * 16]
  | [] => []

/-- `btoa(s)`: throws (`none`) when a code unit is above 0xFF. -/
def btoa (s : String) : Option String :=
  if s.data.all (fun c => decide (c.toNat < 256)) then
    some (String.mk (encodeTriples (s.data.map Char.toNat)))
  else none

/-- ASCII whitespace, which `atob` removes first. -/
def isAsciiWhitespace (c : Char) : Bool :=
  c = '\t' || c = '\n' || c = '\x0c' || c = '\r' || c = ' '

/-- Forgiving-base64 step 2: when the length is a multiple of four, one or two
trailing `=` are removed. -/
def stripPadding (l : List Char) : List Char :=
  if l.length % 4 = 0 then
    if l.getLast? = some '=' then
      if l.dropLast.getLast? = some '=' then l.dropLast.dropLast else l.dropLast
    else l
  else l

/-- Forgiving-base64 bit buffer: four sextets give three bytes; a rest of three
sextets gives two bytes and a rest of two gives one, the spare bits dropped. -/
def decodeQuads : List Nat → List Byte
  | a :: b :: c :: d :: rest =>
      toByte (a * 4 + b / 16) :: toByte (b % 16 * 16 + c / 4) :: toByte (c % 4 * 64 + d)
        :: decodeQuads rest
  | [a, b, c] => [toByte (a * 4 + b / 16), toByte (b % 16 * 16 + c / 4)]
  | [a, b] => [toByte (a * 4 + b / 16)]
  | _ => []

/-- `atob(s)`: throws (`none`) on a length of 1 modulo 4 or a character outside the
alphabet; otherwise the decoded binary string. -/
def atob (s : String) : Option String :=
  let data := stripPadding (s.data.filter fun c => !isAsciiWhitespace c)
  if data.length % 4 = 1 then none
  else
    match data.mapM b64Index with
    | none => none
    | some sextets => some (fromCharCode (decodeQuads sextets))

/-! ## CryptoEngine -/

/-- Handle of a non-extractable `CryptoKey`. -/
structure CryptoKey where
  handle : Nat
deriving DecidableEq, Repr

/-- The `crypto.subtle` operations the script calls, as parameters. -/
structure Subtle where
  /-- PBKDF2 over (password bytes, salt bytes, iterations) to an AES-GCM-256 key. -/
  pbkdf2 : List Byte → List Byte → Nat → CryptoKey
  /-- AES-GCM encryption under (key, iv): ciphertext followed by the tag. -/
  aesEncrypt : CryptoKey → List Byte → List Byte → List Byte
  /-- AES-GCM decryption under (key, iv); `none` when the promise rejects. -/
  aesDecrypt : CryptoKey → List Byte → List Byte → Option (List Byte)

/-- Source lines 15-20. -/
def deriveKey (S : Subtle) (password room : String) : CryptoKey :=
  S.pbkdf2 (textEncode password) (textEncode ("cosmic-chat:" ++ room)) 100000

/-- Source lines 21-28; `iv` is the draw of `crypto.getRandomValues(new Uint8Array(12))`.
`none` when `btoa` throws. -/
def encryptText (S : Subtle) (key : CryptoKey) (iv : List Byte) (plaintext : String) :
    Option String :=
  let ct := S.aesEncrypt key iv (textEncode plaintext)
  let buf := iv ++ ct
  btoa (fromCharCode buf)

/-- Source lines 29-34; `none` when `atob` throws or the decryption rejects. -/
def decryptText (S : Subtle) (key : CryptoKey) (b64 : String) : Option String :=
  match atob b64 with
  | none => none
  | some bin =>
    let raw := charCodes bin
    let iv := raw.take 12
    let ct := raw.drop 12
    match S.aesDecrypt key iv ct with
    | none => none
    | some pt => some (textDecode pt)

/-- Source line 111. -/
def decryptMaybe (S : Subtle) (key : CryptoKey) (text : String) : String :=
  match decryptText S key text with
  | some pt => pt
  | none => "[Encrypted]"

/-- A stand-in for `crypto.subtle`, used to evaluate the model: the key is the sum of
the password and salt bytes, the ciphertext is the plaintext followed by a one-byte
tag `key + iv[0]`, and decryption checks the tag. -/
def toySubtle : Subtle where
  pbkdf2 := fun pw salt _ => ⟨((pw ++ salt).map Fin.val).sum⟩
  aesEncrypt := fun k iv pt => pt ++ [toByte (k.handle + (iv.headD 0).val)]
  aesDecrypt := fun k iv ct =>
    if ct.getLast? = some (toByte (k.handle + (iv.headD 0).val)) then some ct.dropLast
    else none

/-! ## Wire values and the page -/

/-- A value read from an object that `JSON.parse` returned. Arrays hold strings (the
only array of the protocol is the list of names); `obj` is any other object. -/
inductive JVal where
  | undefined
  | null
  | bool (b : Bool)
  | num (n : Int)
  | str (s : String)
  | arr (items : List String)
  | obj
deriving DecidableEq, Repr

/-- Truthiness, as tested by `if (v)`, `v ? a : b`, `v || d`. -/
def JVal.truthy : JVal → Bool
  | .undefined => false
  | .null => false
  | .bool b => b
  | .num n => n != 0
  | .str s => s != ""
  | .arr _ => true
  | .obj => true

/-- Conversion to a string, as in a template literal or a `DOMString` argument. -/
def JVal.toStr : JVal → String
  | .undefined => "undefined"
  | .null => "null"
  | .bool true => "true"
  | .bool false => "false"
  | .num n => toString n
  | .str s => s
  | .arr items => ",".intercalate items
  | .obj => "[object Object]"

/-- Assignment to `textContent`, a nullable `DOMString`: `null` and `undefined` clear it. -/
def JVal.toTextContent : JVal → String
  | .undefined => ""
  | .null => ""
  | v => v.toStr

/-- The `body` member of the options of `new Notification`: `undefined` leaves the
member out, and the body is then empty. -/
def JVal.toBody : JVal → String
  | .undefined => ""
  | v => v.toStr

/-- Key comparison of `Map.prototype.get` (SameValueZero): objects parsed from the wire
are never the same object as a key. -/
def sameValueZero : JVal → JVal → Bool
  | .arr _, _ => false
  | .obj, _ => false
  | a, b => a == b

/-- White space and line terminators removed by `String.prototype.trim`. -/
def isJsSpace (c : Char) : Bool :=
  c.toNat = 0x09 || c.toNat = 0x0A || c.toNat = 0x0B || c.toNat = 0x0C || c.toNat = 0x0D
    || c.toNat = 0x20 || c.toNat = 0xA0 || c.toNat = 0x1680
    || (0x2000 ≤ c.toNat && c.toNat ≤ 0x200A) || c.toNat = 0x2028 || c.toNat = 0x2029
    || c.toNat = 0x202F || c.toNat = 0x205F || c.toNat = 0x3000 || c.toNat = 0xFEFF

/-- `s.trim()`. -/
def jsTrim (s : String) : String :=
  String.mk ((s.data.dropWhile isJsSpace).reverse.dropWhile isJsSpace).reverse

/-- The object an `onmessage` event carries after `JSON.parse`; an absent field reads
as `undefined`. -/
structure Inbound where
  type : JVal := .undefined
  list : JVal := .undefined
  name : JVal := .undefined
  event : JVal := .undefined
  text : JVal := .undefined
  encrypted : JVal := .undefined
  ts : JVal := .undefined
  messageId : JVal := .undefined
  data : JVal := .undefined
  filename : JVal := .undefined
  message : JVal := .undefined
deriving DecidableEq, Repr

/-- One entry of `data.messages` of the history response (source lines 80-87). -/
structure HistoryItem where
  mtype : JVal := .undefined
  sender : JVal := .undefined
  message : JVal := .undefined
  filename : JVal := .undefined
  ts : JVal := .undefined
  encrypted : JVal := .undefined
deriving DecidableEq, Repr

/-- The object handed to `JSON.stringify` for `ws.send`. -/
inductive Frame where
  | seen (messageId : JVal)
  | typing
  | message (text ts : String) (encrypted : Nat) (messageId : String)
  | file (filename data ts : String) (encrypted : Nat) (messageId : String)
deriving DecidableEq, Repr

/-- The `ws` object: the parameters of its URL, `readyState` (0 CONNECTING, 1 OPEN,
2 CLOSING, 3 CLOSED) and the frames transmitted so far. -/
structure WebSocket where
  room : String
  name : String
  password : String
  readyState : Nat := 0
  sent : List Frame := []
deriving DecidableEq, Repr

/-- Content of the body element of a bubble. -/
inductive Body where
  | text (content : String)
  | image (src alt : String)
  | link (href download label : String)
deriving DecidableEq, Repr

/-- One `div.msg` appended to `#messages`; `badge` is the text of its badge element and
`ts` the value handed to `fmtTs`. -/
structure Bubble where
  self : Bool
  fileCard : Bool
  name : String
  ts : JVal
  body : Body
  badge : String := ""
deriving DecidableEq, Repr

/-- Callback of a pending timer. -/
inductive TimerAction where
  | hideTyping
  | clearPresence
deriving DecidableEq, Repr

/-- A pending `setTimeout`. -/
structure Timer where
  id : Nat
  due : Nat
  action : TimerAction
deriving DecidableEq, Repr

/-- The `state` object of source line 10. `myMsgs` maps a message id to its badge
element, named by the index of its bubble in `#messages`. -/
structure State where
  room : String := ""
  name : String := ""
  password : String := ""
  e2e : Bool := false
  key : Option CryptoKey := none
  typingTimeout : Option Nat := none
  myMsgs : List (JVal × Nat) := []
deriving DecidableEq, Repr

/-- A file of the `#file` input: name, size in bytes. -/
structure FileInfo where
  name : String
  size : Nat
deriving DecidableEq, Repr

/-- The script's variables, the page and the event loop. -/
structure World where
  state : State := {}
  ws : Option WebSocket := none
  messageInput : String := ""
  fileInput : String := ""
  messages : List Bubble := []
  typingHidden : Bool := true
  presence : String := ""
  usersList : String := ""
  roomTitle : String := ""
  joinCardHidden : Bool := false
  chatCardHidden : Bool := true
  alerts : List String := []
  documentHidden : Bool := false
  notificationGranted : Bool := false
  notifications : List (String × String) := []
  reads : List FileInfo := []
  now : Nat := 0
  nextTimer : Nat := 1
  timers : List Timer := []
deriving DecidableEq, Repr

/-- What a handler leaves behind: the world, and whether it ended by an exception. -/
structure Outcome where
  world : World
  threw : Bool := false
deriving DecidableEq, Repr

/-- `state.myMsgs.get(id)`. -/
def mapGet (m : List (JVal × Nat)) (id : JVal) : Option Nat :=
  (m.find? fun e => sameValueZero id e.1).map Prod.snd

/-- `state.myMsgs.set(id, badge)`. -/
def mapSet (m : List (JVal × Nat)) (id : JVal) (badge : Nat) : List (JVal × Nat) :=
  if (m.find? fun e => sameValueZero id e.1).isSome then
    m.map fun e => if sameValueZero id e.1 then (e.1, badge) else e
  else m ++ [(id, badge)]

/-- Source lines 43-45 and 55-57, shared by the two kinds of bubble: the bubble goes to
the end of `#messages`, and its badge is recorded under `id` when `self && id`. -/
def attachBubble (w : World) (bubble : Bubble) (self : Bool) (id : JVal) : World :=
  { w with
    messages := w.messages ++ [bubble]
    state :=
      if self && id.truthy then
        { w.state with myMsgs := mapSet w.state.myMsgs id w.messages.length }
      else w.state }

/-- Source lines 37-46. -/
def appendTextBubble (w : World) (name text ts : JVal) (self : Bool) (id : JVal) : World :=
  attachBubble w
    { self := self, fileCard := false, name := name.toStr, ts := ts,
      body := .text text.toTextContent } self id

/-- Source lines 52-53: an image for an image data URI, a download link otherwise. -/
def fileBody (d : String) (filename : JVal) : Body :=
  if "data:image/".isPrefixOf d then .image d filename.toStr
  else .link d filename.toStr ("Download " ++ filename.toStr)

/-- Source lines 47-58. `none` is the `TypeError` of `data.startsWith` on a value that
is not a string, raised before anything is appended. -/
def appendFileBubble (w : World) (name data filename ts : JVal) (self : Bool) (id : JVal) :
    Option World :=
  match data with
  | .str d =>
    some (attachBubble w
      { self := self, fileCard := true, name := name.toStr, ts := ts,
        body := fileBody d filename } self id)
  | _ => none

/-- Source line 59. `none` is the `TypeError` of `list.join` on a value that is not an
array. -/
def updateUsers (w : World) (list : JVal) : Option World :=
  match list with
  | .arr items =>
    let joined := ", ".intercalate items
    some { w with usersList := "Active stars: " ++ (if joined = "" then "—" else joined) }
  | _ => none

/-- Source line 60. -/
def notify (w : World) (title body : String) : World :=
  if w.documentHidden && w.notificationGranted then
    { w with notifications := w.notifications ++ [(title, body)] }
  else w

/-- `alert(text)`. -/
def alert (w : World) (text : String) : World :=
  { w with alerts := w.alerts ++ [text] }

/-- `setTimeout(callback, delay)`: the new world and the timer id. -/
def setTimeout (w : World) (action : TimerAction) (delay : Nat) : World × Nat :=
  ({ w with timers := w.timers ++ [{ id := w.nextTimer, due := w.now + delay, action := action }],
            nextTimer := w.nextTimer + 1 }, w.nextTimer)

/-- `clearTimeout(id)`; `null` names no timer. -/
def clearTimeout (w : World) (id : Option Nat) : World :=
  match id with
  | none => w
  | some i => { w with timers := w.timers.filter fun t => t.id != i }

/-- `ws.send(JSON.stringify(frame))`. `none` is an exception: `ws` is `null`, or the
socket is still CONNECTING. On a CLOSING or CLOSED socket the frame is dropped. -/
def wsSend (w : World) (frame : Frame) : Option World :=
  match w.ws with
  | none => none
  | some c =>
    if c.readyState = 0 then none
    else if c.readyState = 1 then some { w with ws := some { c with sent := c.sent ++ [frame] } }
    else some w

/-- `ws && ws.readyState === WebSocket.OPEN`. -/
def wsOpen (w : World) : Bool :=
  match w.ws with
  | none => false
  | some c => c.readyState == 1

/-- Frames transmitted on the current connection. -/
def sentFrames (w : World) : List Frame :=
  match w.ws with
  | none => []
  | some c => c.sent

/-! ## ConnectionSession: the handlers -/

/-- Source line 107, `el.textContent = "✨ seen"` on the badge element of the bubble
at index `badge`. -/
def markSeen : List Bubble → Nat → List Bubble
  | [], _ => []
  | b :: bs, 0 => { b with badge := "✨ seen" } :: bs
  | b :: bs, n + 1 => b :: markSeen bs n

/-- Text shown for an inbound or historical text message (source lines 84-85, 99-100). -/
def displayText (S : Subtle) (st : State) (text encrypted : JVal) : JVal :=
  if encrypted.truthy then
    match st.key with
    | some k => .str (decryptMaybe S k text.toStr)
    | none => .str "[Encrypted message]"
  else text

/-- Source lines 93-109: `ws.onmessage`, on the parsed object `data`. -/
def onmessage (S : Subtle) (w : World) (data : Inbound) : Outcome :=
  if data.type = .str "users" then
    match updateUsers w data.list with
    | some w1 => { world := w1 }
    | none => { world := w, threw := true }
  else if data.type = .str "presence" then
    let w1 := { w with presence := data.name.toStr ++ " " ++ data.event.toStr }
    { world := (setTimeout w1 .clearPresence 1200).1 }
  else if data.type = .str "typing" then
    let w1 := { w with typingHidden := false }
    let w2 := clearTimeout w1 w1.state.typingTimeout
    let r := setTimeout w2 .hideTyping 800
    { world := { r.1 with state := { r.1.state with typingTimeout := some r.2 } } }
  else if data.type = .str "message" then
    let text := displayText S w.state data.text data.encrypted
    let w1 := appendTextBubble w data.name text data.ts false data.messageId
    let w2 := notify w1 data.name.toStr text.toBody
    match wsSend w2 (.seen data.messageId) with
    | some w3 => { world := w3 }
    | none => { world := w2, threw := true }
  else if data.type = .str "file" then
    match appendFileBubble w data.name data.data data.filename data.ts false data.messageId with
    | none => { world := w, threw := true }
    | some w1 =>
      let w2 := notify w1 data.name.toStr ("Sent file: " ++ data.filename.toStr)
      match wsSend w2 (.seen data.messageId) with
      | some w3 => { world := w3 }
      | none => { world := w2, threw := true }
  else if data.type = .str "seen" then
    match mapGet w.state.myMsgs data.messageId with
    | some badge =>
      { world := { w with messages := markSeen w.messages badge } }
    | none => { world := w }
  else if data.type = .str "error" then
    { world := alert w (if data.message.truthy then data.message.toStr else "Error") }
  else { world := w }

/-- Source lines 80-88: the loop over the history; it stops at the first exception,
which the enclosing `try` swallows. -/
def renderHistory (S : Subtle) : World → List HistoryItem → World
  | w, [] => w
  | w, m :: rest =>
    if m.mtype = .str "file" then
      match appendFileBubble w m.sender m.message m.filename m.ts
          (m.sender == .str w.state.name) .null with
      | none => w
      | some w1 => renderHistory S w1 rest
    else
      let text := displayText S w.state m.message m.encrypted
      renderHistory S
        (appendTextBubble w m.sender text m.ts (m.sender == .str w.state.name) .null) rest

/-- Source lines 62-92: the click handler of `#join`, on the values of the four form
controls; `history` is the list the history request returned, `none` when the request
or its parsing failed. -/
def join (S : Subtle) (w : World) (room name password : String) (e2e : Bool)
    (history : Option (List HistoryItem)) : World :=
  let st1 : State :=
    { w.state with room := jsTrim room, name := jsTrim name, password := password, e2e := e2e }
  let w1 := { w with state := st1 }
  if st1.room = "" || st1.name = "" then alert w1 "Room and Nickname required."
  else if st1.e2e && st1.password = "" then alert w1 "Set a shared password for E2E."
  else
    let st2 : State :=
      if st1.e2e then { st1 with key := some (deriveKey S st1.password st1.room) } else st1
    let w2 := { w1 with state := st2, joinCardHidden := true, chatCardHidden := false,
                        roomTitle := "Room " ++ st2.room }
    let w3 := match history with
      | some items => renderHistory S w2 items
      | none => w2
    { w3 with ws := some { room := st2.room, name := st2.name, password := st2.password } }

/-- Source lines 113-122: `sendMessage`; `id`, `ts` and `iv` are the draws of
`crypto.randomUUID()`, `tsNow()` and `crypto.getRandomValues`. -/
def sendMessage (S : Subtle) (w : World) (id ts : String) (iv : List Byte) : Outcome :=
  let text := jsTrim w.messageInput
  if text = "" || !wsOpen w then { world := w }
  else
    let payload : Option Frame :=
      match w.state.e2e, w.state.key with
      | true, some k => (encryptText S k iv text).map fun blob => Frame.message blob ts 1 id
      | _, _ => some (Frame.message text ts 0 id)
    match payload with
    | none => { world := w, threw := true }
    | some frame =>
      match wsSend w frame with
      | none => { world := w, threw := true }
      | some w1 =>
        let w2 := appendTextBubble w1 (.str w1.state.name)
          (.str (if w1.state.e2e then "[You: Encrypted]" else text)) (.str ts) true (.str id)
        { world := { w2 with messageInput := "" } }

/-- Source line 125: the `input` handler of `#message`. -/
def onInput (w : World) : Outcome :=
  if wsOpen w then
    match wsSend w .typing with
    | some w1 => { world := w1 }
    | none => { world := w, threw := true }
  else { world := w }

/-- Source lines 127-130 and 138: the `change` handler of `#file` up to
`reader.readAsDataURL(f)`, which is recorded in `reads`. -/
def onFileChange (w : World) (f : Option FileInfo) : World :=
  match f with
  | none => w
  | some file =>
    if !wsOpen w then w
    else if file.size > 2 * 1024 * 1024 then alert w "Max 2 MB for demo."
    else { w with reads := w.reads ++ [file] }

/-- Source lines 131-137: `reader.onload` of the oldest pending read; `result` is
`reader.result`, the data URI of the file. -/
def readerOnload (w : World) (result id ts : String) : Outcome :=
  match w.reads with
  | [] => { world := w }
  | f :: pending =>
    let w0 := { w with reads := pending }
    match wsSend w0 (.file f.name result ts 0 id) with
    | none => { world := w0, threw := true }
    | some w1 =>
      match appendFileBubble w1 (.str w1.state.name) (.str result) (.str f.name) (.str ts)
          true (.str id) with
      | none => { world := w1, threw := true }
      | some w2 => { world := { w2 with fileInput := "" } }

/-! ## Timers and the event loop -/

/-- Run the callback of a timer. -/
def runTimer (w : World) (t : Timer) : World :=
  match t.action with
  | .hideTyping => { w with typingHidden := true }
  | .clearPresence => { w with presence := "" }

/-- Let the clock reach `t`: the timers due by then run in the order of their due
time (in the order of creation when equal) and are removed. -/
def advanceTo (w : World) (t : Nat) : World :=
  if t < w.now then w
  else
    let due := (w.timers.filter fun x => decide (x.due ≤ t)).insertionSort
      fun a b => a.due ≤ b.due
    let w1 := due.foldl runTimer { w with timers := w.timers.filter fun x => decide (t < x.due) }
    { w1 with now := t }

/-- What can happen to the page. -/
inductive Action where
  | join (room name password : String) (e2e : Bool) (history : Option (List HistoryItem))
  | socketOpen
  | socketClose
  | inbound (data : Inbound)
  | input (value : String)
  | send (id ts : String) (iv : List Byte)
  | fileChange (f : Option FileInfo)
  | fileLoaded (result id ts : String)
  | visibility (hidden : Bool)
  | permission (granted : Bool)
  | advance (t : Nat)

/-- One event. A click reaches `#join` only while the card that holds the button is
shown (source line 71 hides it). An inbound frame is delivered on an open connection
only. Only the socket held by `ws` is followed. -/
def step (S : Subtle) (w : World) : Action → World
  | .join room name password e2e history =>
    if w.joinCardHidden then w else join S w room name password e2e history
  | .socketOpen =>
    match w.ws with
    | some c => if c.readyState = 0 then { w with ws := some { c with readyState := 1 } } else w
    | none => w
  | .socketClose =>
    match w.ws with
    | some c => { w with ws := some { c with readyState := 3 } }
    | none => w
  | .inbound data => if wsOpen w then (onmessage S w data).world else w
  | .input value => (onInput { w with messageInput := value }).world
  | .send id ts iv => (sendMessage S w id ts iv).world
  | .fileChange f => onFileChange w f
  | .fileLoaded result id ts => (readerOnload w result id ts).world
  | .visibility hidden => { w with documentHidden := hidden }
  | .permission granted => { w with notificationGranted := granted }
  | .advance t => advanceTo w t

/-- A sequence of events, from the left. -/
def run (S : Subtle) (w : World) (actions : List Action) : World :=
  actions.foldl (step S) w

/-- The page when the script has loaded (source lines 9-10): no connection, empty
state, no timer. -/
def initialWorld : World := {}

/-- Worlds that the handlers can produce from the loaded page. -/
def Reachable (S : Subtle) (w : World) : Prop :=
  ∃ actions : List Action, w = run S initialWorld actions

/-- The indicator `#typing` is shown. -/
def typingVisible (w : World) : Bool := !w.typingHidden

/-- Number of pending timers that hide the indicator. -/
def pendingHideTimers (w : World) : Nat :=
  (w.timers.filter fun t => t.action == .hideTyping).length

/-- The invariant of the typing timer: every pending timer that hides the indicator is
the one recorded in `state.typingTimeout`, and there is at most one. -/
def TimerInv (w : World) : Prop :=
  (∀ t ∈ w.timers, t.action = .hideTyping → w.state.typingTimeout = some t.id) ∧
  pendingHideTimers w ≤ 1

/-- The part of the page that decides whether a message is encrypted: whether `ws`
holds a socket, whether the join card is hidden, `state.e2e` and `state.key`. -/
def sessionView (w : World) : Bool × Bool × Bool × Option CryptoKey :=
  (w.ws.isSome, w.joinCardHidden, w.state.e2e, w.state.key)

/-- The invariant of the session: once `ws` holds a socket the join card is hidden, and
if E2E is enabled a key is held. -/
def SessionInv (w : World) : Prop :=
  w.ws.isSome = true → w.joinCardHidden = true ∧ (w.state.e2e = true → w.state.key.isSome = true)

/-- The inbound `typing` pulse. -/
def typingPulse : Inbound := { type := .str "typing" }

/-- The page at time `t`, when `typing` pulses arrive at the listed times and nothing
else happens: the pulses up to `t` are delivered in turn, each after the clock has
reached its time, and then the clock reaches `t`. -/
def afterPulses (S : Subtle) (w : World) (pulses : List Nat) (t : Nat) : World :=
  advanceTo ((pulses.filter fun p => decide (p ≤ t)).foldl
    (fun v p => (onmessage S (advanceTo v p) typingPulse).world) w) t

/-! ## Sample pages -/

/-- The page after joining room "orbit" as "A" without E2E, connection open. -/
def plainSession : World :=
  run toySubtle initialWorld [.join "orbit" "A" "" false none, .socketOpen]

/-- The page after joining room "orbit" as "B" with E2E under `password`, connection
open. -/
def e2eSession (password : String) : World :=
  run toySubtle initialWorld [.join "orbit" "B" password true none, .socketOpen]

/-- The blob a peer with password "secret42" sends for "hello". -/
def helloBlob : String :=
  (encryptText toySubtle (deriveKey toySubtle "secret42" "orbit")
    [1, 2, 3, 4, 5, 6, 7, 8, 9, 10, 11, 12] "hello").getD ""

/-- The inbound envelope that carries `helloBlob`. -/
def helloEnvelope : Inbound :=
  { type := .str "message", name := .str "A", text := .str helloBlob, encrypted := .num 1,
    ts := .str "2024-01-01T00:00:00.000Z", messageId := .str "m1" }

/-- A `file` envelope without a `data` field. -/
def fileWithoutData : Inbound :=
  { type := .str "file", name := .str "A", filename := .str "a.png", messageId := .str "m2" }

/-- The page `plainSession` after "hello" was typed and sent under the id "id-1". -/
def sentHello : World :=
  run toySubtle plainSession [.input "hello", .send "id-1" "t-1" []]

/-- The page `plainSession` after the connection closed and "hello" was typed. -/
def closedWithText : World :=
  run toySubtle plainSession [.socketClose, .input "hello"]

/-- A file of three bytes. -/
def smallFile : FileInfo := { name := "a.txt", size := 3 }

/-- A file of 3 MiB. -/
def bigFile : FileInfo := { name := "big.bin", size := 3 * 1024 * 1024 }

/-! ## Basic facts about the connection -/

theorem wsOpen_iff (w : World) :
    wsOpen w = true ↔ ∃ c, w.ws = some c ∧ c.readyState = 1 := by
  unfold wsOpen
  cases h : w.ws with
  | none => simp
  | some c => simp

theorem wsSend_of_open (w : World) (frame : Frame) (h : wsOpen w = true) :
    ∃ w1, wsSend w frame = some w1 ∧ sentFrames w1 = sentFrames w ++ [frame] ∧
      wsOpen w1 = true ∧ w1.state = w.state ∧ w1.messages = w.messages ∧
      w1.timers = w.timers ∧ w1.reads = w.reads := by
  obtain ⟨c, hc, hr⟩ := (wsOpen_iff w).1 h
  refine ⟨{ w with ws := some { c with sent := c.sent ++ [frame] } }, ?_, ?_, ?_, rfl, rfl, rfl, rfl⟩
  · simp [wsSend, hc, hr]
  · simp [sentFrames, hc]
  · simp [wsOpen, hr]

theorem notify_ws (w : World) (title body : String) : (notify w title body).ws = w.ws := by
  unfold notify
  split <;> rfl

theorem notify_messages (w : World) (title body : String) :
    (notify w title body).messages = w.messages := by
  unfold notify
  split <;> rfl

theorem notify_state (w : World) (title body : String) :
    (notify w title body).state = w.state := by
  unfold notify
  split <;> rfl

theorem wsOpen_congr (w v : World) (h : v.ws = w.ws) : wsOpen v = wsOpen w := by
  simp [wsOpen, h]

theorem sentFrames_congr (w v : World) (h : v.ws = w.ws) : sentFrames v = sentFrames w := by
  simp [sentFrames, h]

/-- The `message` branch of `onmessage` on an open connection: one bubble, one `seen`. -/
theorem onmessage_message (S : Subtle) (w : World) (data : Inbound)
    (hopen : wsOpen w = true) (ht : data.type = .str "message") :
    (onmessage S w data).threw = false ∧
    sentFrames (onmessage S w data).world = sentFrames w ++ [.seen data.messageId] ∧
    (onmessage S w data).world.messages = w.messages ++
      [{ self := false, fileCard := false, name := data.name.toStr, ts := data.ts,
         body := .text (displayText S w.state data.text data.encrypted).toTextContent }] := by
  have h2 : wsOpen (notify (appendTextBubble w data.name
      (displayText S w.state data.text data.encrypted) data.ts false data.messageId)
      data.name.toStr (displayText S w.state data.text data.encrypted).toBody) = true := by
    rw [wsOpen_congr w _ (by rw [notify_ws]; rfl)]; exact hopen
  obtain ⟨w3, h3, hs, -, -, hm, -, -⟩ := wsSend_of_open _ (.seen data.messageId) h2
  simp only [onmessage, ht, h3]
  simp only [JVal.str.injEq, String.reduceEq, if_false, if_true, reduceCtorEq]
  refine ⟨trivial, ?_, ?_⟩
  · rw [hs, sentFrames_congr w _ (by rw [notify_ws]; rfl)]
  · rw [hm, notify_messages]; rfl

/-- The `file` branch of `onmessage` on an open connection, for a string payload. -/
theorem onmessage_file (S : Subtle) (w : World) (data : Inbound) (d : String)
    (hopen : wsOpen w = true) (ht : data.type = .str "file") (hd : data.data = .str d) :
    (onmessage S w data).threw = false ∧
    sentFrames (onmessage S w data).world = sentFrames w ++ [.seen data.messageId] := by
  have h2 : wsOpen (notify (attachBubble w
      { self := false, fileCard := true, name := data.name.toStr, ts := data.ts,
        body := fileBody d data.filename } false data.messageId)
      data.name.toStr ("Sent file: " ++ data.filename.toStr)) = true := by
    rw [wsOpen_congr w _ (by rw [notify_ws]; rfl)]; exact hopen
  obtain ⟨w3, h3, hs, -, -, hm, -, -⟩ := wsSend_of_open _ (.seen data.messageId) h2
  simp only [onmessage, ht, hd, appendFileBubble, h3]
  simp only [JVal.str.injEq, String.reduceEq, if_false, if_true, reduceCtorEq]
  refine ⟨trivial, ?_⟩
  rw [hs, sentFrames_congr w _ (by rw [notify_ws]; rfl)]

/-- A `file` envelope whose `data` is not a string: the handler throws in
`appendFileBubble` and leaves the world as it was. -/
theorem onmessage_file_throws (S : Subtle) (w : World) (data : Inbound)
    (ht : data.type = .str "file") (hd : ∀ d, data.data ≠ .str d) :
    onmessage S w data = { world := w, threw := true } := by
  have : appendFileBubble w data.name data.data data.filename data.ts false data.messageId
      = none := by
    unfold appendFileBubble
    split
    · rename_i d h; exact absurd h (hd d)
    · rfl
  simp only [onmessage, ht, this]
  simp only [JVal.str.injEq, String.reduceEq, if_false, if_true, reduceCtorEq]

/-- The `typing` branch of `onmessage`. -/
theorem onmessage_typing (S : Subtle) (w : World) (data : Inbound)
    (ht : data.type = .str "typing") :
    onmessage S w data =
      { world :=
          { w with
            typingHidden := false
            timers := (clearTimeout w w.state.typingTimeout).timers ++
              [{ id := w.nextTimer, due := w.now + 800, action := .hideTyping }]
            nextTimer := w.nextTimer + 1
            state := { w.state with typingTimeout := some w.nextTimer } } } := by
  simp only [onmessage, ht]
  simp only [JVal.str.injEq, String.reduceEq, if_false, if_true, reduceCtorEq]
  cases h : w.state.typingTimeout <;> simp [setTimeout, clearTimeout, h]

/-- The `presence` branch of `onmessage`. -/
theorem onmessage_presence (S : Subtle) (w : World) (data : Inbound)
    (ht : data.type = .str "presence") :
    onmessage S w data =
      { world :=
          { w with
            presence := data.name.toStr ++ " " ++ data.event.toStr
            timers := w.timers ++
              [{ id := w.nextTimer, due := w.now + 1200, action := .clearPresence }]
            nextTimer := w.nextTimer + 1 } } := by
  simp only [onmessage, ht]
  simp only [JVal.str.injEq, String.reduceEq, if_false, if_true, reduceCtorEq]
  simp [setTimeout]

/-- The `seen` branch of `onmessage`. -/
theorem onmessage_seen (S : Subtle) (w : World) (data : Inbound)
    (ht : data.type = .str "seen") :
    onmessage S w data =
      match mapGet w.state.myMsgs data.messageId with
      | some badge =>
        { world := { w with
            messages := markSeen w.messages badge } }
      | none => { world := w } := by
  simp only [onmessage, ht]
  simp only [JVal.str.injEq, String.reduceEq, if_false, if_true, reduceCtorEq]

/-- The `users` branch of `onmessage`. -/
theorem onmessage_users (S : Subtle) (w : World) (data : Inbound)
    (ht : data.type = .str "users") :
    onmessage S w data =
      match updateUsers w data.list with
      | some w1 => { world := w1 }
      | none => { world := w, threw := true } := by
  simp only [onmessage, ht]
  simp only [JVal.str.injEq, String.reduceEq, if_false, if_true, reduceCtorEq]

/-- The `error` branch of `onmessage`. -/
theorem onmessage_error (S : Subtle) (w : World) (data : Inbound)
    (ht : data.type = .str "error") :
    onmessage S w data =
      { world := alert w (if data.message.truthy then data.message.toStr else "Error") } := by
  simp only [onmessage, ht]
  simp only [JVal.str.injEq, String.reduceEq, if_false, if_true, reduceCtorEq]

/-- An envelope of no known type is ignored. -/
theorem onmessage_unknown (S : Subtle) (w : World) (data : Inbound)
    (h1 : data.type ≠ .str "users") (h2 : data.type ≠ .str "presence")
    (h3 : data.type ≠ .str "typing") (h4 : data.type ≠ .str "message")
    (h5 : data.type ≠ .str "file") (h6 : data.type ≠ .str "seen")
    (h7 : data.type ≠ .str "error") :
    onmessage S w data = { world := w } := by
  simp only [onmessage, h1, h2, h3, h4, h5, h6, h7, if_false]

theorem updateUsers_ws (w w1 : World) (list : JVal) (h : updateUsers w list = some w1) :
    w1.ws = w.ws := by
  cases list <;> simp [updateUsers] at h
  subst h; rfl

/-- Every branch of `onmessage` other than `message` and `file` leaves the connection
as it was. -/
theorem onmessage_other_ws (S : Subtle) (w : World) (data : Inbound)
    (hm : data.type ≠ .str "message") (hf : data.type ≠ .str "file") :
    (onmessage S w data).world.ws = w.ws := by
  by_cases h1 : data.type = .str "users"
  · rw [onmessage_users S w data h1]
    cases h : updateUsers w data.list with
    | none => rfl
    | some w1 => exact updateUsers_ws w w1 _ h
  by_cases h2 : data.type = .str "presence"
  · rw [onmessage_presence S w data h2]
  by_cases h3 : data.type = .str "typing"
  · rw [onmessage_typing S w data h3]
  by_cases h6 : data.type = .str "seen"
  · rw [onmessage_seen S w data h6]
    cases mapGet w.state.myMsgs data.messageId <;> rfl
  by_cases h7 : data.type = .str "error"
  · rw [onmessage_error S w data h7]; rfl
  rw [onmessage_unknown S w data h1 h2 h3 hm hf h6 h7]

/-! ## Claims about the handlers -/

/-- C1, counterexample: on an open connection a `file` envelope without a `data`
field makes the handler throw; no `seen` envelope is sent for it. -/
theorem file_without_data_not_acknowledged :
    wsOpen plainSession = true ∧ fileWithoutData.type = .str "file" ∧
    (onmessage toySubtle plainSession fileWithoutData).threw = true ∧
    sentFrames (onmessage toySubtle plainSession fileWithoutData).world = [] := by
  decide

/-- C1, amended: on an open connection, every inbound `message` envelope and every
inbound `file` envelope whose `data` field is a string makes the handler send exactly
one frame, `seen` with the `messageId` of the envelope, without throwing; an envelope
of any other type sends nothing. -/
theorem seen_sent_once_per_message (S : Subtle) (w : World) (data : Inbound)
    (hopen : wsOpen w = true) :
    (data.type = .str "message" ∨ (data.type = .str "file" ∧ ∃ d, data.data = .str d) →
      (onmessage S w data).threw = false ∧
      sentFrames (onmessage S w data).world = sentFrames w ++ [.seen data.messageId]) ∧
    (data.type ≠ .str "message" → data.type ≠ .str "file" →
      sentFrames (onmessage S w data).world = sentFrames w) := by
  constructor
  · rintro (ht | ⟨ht, d, hd⟩)
    · exact ⟨(onmessage_message S w data hopen ht).1, (onmessage_message S w data hopen ht).2.1⟩
    · exact onmessage_file S w data d hopen ht hd
  · intro hm hf
    exact sentFrames_congr w _ (onmessage_other_ws S w data hm hf)

/-- C1, witness: the amended claim at the envelope `helloEnvelope`, which is
acknowledged, and at a `typing` pulse, which is not. -/
theorem seen_sent_once_per_message_witness :
    wsOpen plainSession = true ∧ helloEnvelope.type = .str "message" ∧
    sentFrames (onmessage toySubtle plainSession helloEnvelope).world
      = sentFrames plainSession ++ [.seen helloEnvelope.messageId] ∧
    typingPulse.type ≠ .str "message" ∧ typingPulse.type ≠ .str "file" ∧
    sentFrames (onmessage toySubtle plainSession typingPulse).world = sentFrames plainSession :=
  ⟨by decide, by decide,
    ((seen_sent_once_per_message toySubtle plainSession helloEnvelope (by decide)).1
      (Or.inl (by decide))).2,
    by decide, by decide,
    (seen_sent_once_per_message toySubtle plainSession typingPulse (by decide)).2
      (by decide) (by decide)⟩

/-- C3, counterexample: a receiver who joined with another password renders the text
"[Encrypted]" for the message, not "[Encrypted message]". -/
theorem wrong_password_renders_short_placeholder :
    decryptText toySubtle (deriveKey toySubtle "other" "orbit") helloBlob = none ∧
    (onmessage toySubtle (e2eSession "other") helloEnvelope).world.messages =
      [{ self := false, fileCard := false, name := "A",
         ts := .str "2024-01-01T00:00:00.000Z", body := .text "[Encrypted]" }] ∧
    (onmessage toySubtle (e2eSession "other") helloEnvelope).world.messages ≠
      [{ self := false, fileCard := false, name := "A",
         ts := .str "2024-01-01T00:00:00.000Z", body := .text "[Encrypted message]" }] := by
  decide

/-- C3, amended: for every inbound `message` envelope marked encrypted that the held
key cannot decrypt, the handler on an open connection does not throw and appends one
bubble whose text is exactly "[Encrypted]". -/
theorem undecryptable_message_placeholder (S : Subtle) (w : World) (data : Inbound)
    (k : CryptoKey) (hopen : wsOpen w = true) (ht : data.type = .str "message")
    (henc : data.encrypted.truthy = true) (hk : w.state.key = some k)
    (hfail : decryptText S k data.text.toStr = none) :
    (onmessage S w data).threw = false ∧
    (onmessage S w data).world.messages = w.messages ++
      [{ self := false, fileCard := false, name := data.name.toStr, ts := data.ts,
         body := .text "[Encrypted]" }] := by
  have h := onmessage_message S w data hopen ht
  have hd : displayText S w.state data.text data.encrypted = .str "[Encrypted]" := by
    simp [displayText, henc, hk, decryptMaybe, hfail]
  rw [hd] at h
  exact ⟨h.1, h.2.2⟩

/-- C3, witness: the amended claim for the receiver with the other password. -/
theorem undecryptable_message_placeholder_witness :
    decryptText toySubtle (deriveKey toySubtle "other" "orbit") helloEnvelope.text.toStr = none ∧
    (onmessage toySubtle (e2eSession "other") helloEnvelope).threw = false :=
  ⟨by decide,
    (undecryptable_message_placeholder toySubtle (e2eSession "other") helloEnvelope
      (deriveKey toySubtle "other" "orbit") (by decide) (by decide) (by decide) (by decide)
      (by decide)).1⟩

/-- The code unit made from a byte is that byte. -/
theorem toNat_ofNat_byte (b : Byte) : (Char.ofNat b.val).toNat = b.val := by
  have hb : b.val < 256 := b.isLt
  have hv : Nat.isValidChar b.val := Or.inl (by omega)
  simp only [Char.ofNat, hv, dite_true, Char.toNat, Char.ofNatAux]
  rfl

/-- `btoa` accepts every string made from a byte buffer. -/
theorem btoa_fromCharCode (buf : List Byte) :
    btoa (fromCharCode buf) = some (String.mk (encodeTriples (buf.map Fin.val))) := by
  have hall : (fromCharCode buf).data.all (fun c => decide (c.toNat < 256)) = true := by
    simp only [fromCharCode, List.all_eq_true, List.mem_map, decide_eq_true_eq]
    rintro c ⟨b, -, rfl⟩
    rw [toNat_ofNat_byte]; exact b.isLt
  have hmap : (fromCharCode buf).data.map Char.toNat = buf.map Fin.val := by
    simp only [fromCharCode, List.map_map]
    apply List.map_congr_left
    intro b _
    exact toNat_ofNat_byte b
  simp only [btoa, hall, if_true, hmap]

/-- `encryptText` never throws. -/
theorem encryptText_eq (S : Subtle) (k : CryptoKey) (iv : List Byte) (plaintext : String) :
    encryptText S k iv plaintext =
      some (String.mk (encodeTriples
        ((iv ++ S.aesEncrypt k iv (textEncode plaintext)).map Fin.val))) := by
  simp only [encryptText, btoa_fromCharCode]

/-- With E2E enabled, a key held and the connection open, `sendMessage` with a non-blank
text does not throw and transmits one `message` frame whose encrypted flag is 1 and
whose text is the output of `encryptText` for the trimmed text under the held key. -/
theorem sendMessage_with_key (S : Subtle) (w : World) (id ts : String)
    (iv : List Byte) (k : CryptoKey)
    (he2e : w.state.e2e = true) (hk : w.state.key = some k) (hopen : wsOpen w = true)
    (htext : jsTrim w.messageInput ≠ "") :
    ∃ blob, encryptText S k iv (jsTrim w.messageInput) = some blob ∧
      (sendMessage S w id ts iv).threw = false ∧
      sentFrames (sendMessage S w id ts iv).world = sentFrames w ++ [.message blob ts 1 id] := by
  refine ⟨_, encryptText_eq S k iv _, ?_⟩
  obtain ⟨w1, h1, hs, -, -, -, -, -⟩ := wsSend_of_open w
    (.message (String.mk (encodeTriples
      ((iv ++ S.aesEncrypt k iv (textEncode (jsTrim w.messageInput))).map Fin.val))) ts 1 id) hopen
  simp only [sendMessage, htext, hopen, he2e, hk, encryptText_eq, Option.map_some', h1]
  simp only [decide_False, Bool.not_true, Bool.or_self, Bool.false_eq_true, if_false]
  refine ⟨trivial, ?_⟩
  rw [← hs]
  rfl

/-- C5, counterexample: with E2E enabled and a key held, the `file` frame that is
transmitted carries the encrypted flag 0 and the data URI itself. -/
theorem file_sent_unencrypted_with_e2e :
    (e2eSession "secret42").state.e2e = true ∧
    (e2eSession "secret42").state.key = some (deriveKey toySubtle "secret42" "orbit") ∧
    sentFrames (readerOnload (onFileChange (e2eSession "secret42") (some smallFile))
        "data:text/plain;base64,YWJj" "id-2" "t-2").world =
      [.file "a.txt" "data:text/plain;base64,YWJj" "t-2" 0 "id-2"] ∧
    encryptText toySubtle (deriveKey toySubtle "secret42" "orbit")
        [1, 2, 3, 4, 5, 6, 7, 8, 9, 10, 11, 12] "data:text/plain;base64,YWJj"
      ≠ some "data:text/plain;base64,YWJj" := by
  decide

/-- C5, amended: the file send path does not encrypt. For every file whose read has
completed while the connection is open, whatever the E2E setting and the key, the
handler does not throw and transmits one `file` frame with the encrypted flag 0 and
the data URI of the file as its `data` field. -/
theorem file_frame_is_plaintext (w : World) (f : FileInfo) (pending : List FileInfo)
    (result id ts : String) (hreads : w.reads = f :: pending) (hopen : wsOpen w = true) :
    (readerOnload w result id ts).threw = false ∧
    sentFrames (readerOnload w result id ts).world =
      sentFrames w ++ [.file f.name result ts 0 id] := by
  have h0 : wsOpen { w with reads := pending } = true := hopen
  obtain ⟨w1, h1, hs, -, -, -, -, -⟩ :=
    wsSend_of_open { w with reads := pending } (.file f.name result ts 0 id) h0
  simp only [readerOnload, hreads, h1, appendFileBubble]
  exact ⟨trivial, hs⟩

/-- C5, witness: the amended claim on a page with E2E enabled and a key held. -/
theorem file_frame_is_plaintext_witness :
    (onFileChange (e2eSession "secret42") (some smallFile)).reads = smallFile :: [] ∧
    wsOpen (onFileChange (e2eSession "secret42") (some smallFile)) = true ∧
    sentFrames (readerOnload (onFileChange (e2eSession "secret42") (some smallFile))
        "data:text/plain;base64,YWJj" "id-2" "t-2").world =
      sentFrames (onFileChange (e2eSession "secret42") (some smallFile)) ++
        [.file smallFile.name "data:text/plain;base64,YWJj" "t-2" 0 "id-2"] :=
  ⟨by decide, by decide,
    (file_frame_is_plaintext (onFileChange (e2eSession "secret42") (some smallFile))
      smallFile [] "data:text/plain;base64,YWJj" "id-2" "t-2" (by decide) (by decide)).2⟩

/-- C6: when there is no connection, or its `readyState` is not OPEN, each of
`sendMessage`, the `change` handler of `#file` and the `input` handler of `#message`
returns at once and leaves the whole page as it was: nothing is sent, no bubble is
appended, no read is started and `state.myMsgs` is unchanged. -/
theorem outbound_ignored_unless_open (S : Subtle) (w : World) (id ts : String)
    (iv : List Byte) (f : Option FileInfo)
    (h : w.ws = none ∨ ∃ c, w.ws = some c ∧ c.readyState ≠ 1) :
    (sendMessage S w id ts iv = { world := w } ∧
      onFileChange w f = w ∧
      onInput w = { world := w }) ∧
    sentFrames (sendMessage S w id ts iv).world = sentFrames w ∧
    (sendMessage S w id ts iv).world.messages = w.messages ∧
    (sendMessage S w id ts iv).world.state.myMsgs = w.state.myMsgs ∧
    sentFrames (onFileChange w f) = sentFrames w ∧
    (onFileChange w f).messages = w.messages ∧
    (onFileChange w f).state.myMsgs = w.state.myMsgs ∧
    sentFrames (onInput w).world = sentFrames w ∧
    (onInput w).world.messages = w.messages ∧
    (onInput w).world.state.myMsgs = w.state.myMsgs := by
  have hopen : wsOpen w = false := by
    rcases h with h | ⟨c, hc, hr⟩
    · simp [wsOpen, h]
    · simp [wsOpen, hc, hr]
  have h1 : sendMessage S w id ts iv = { world := w } := by simp [sendMessage, hopen]
  have h2 : onFileChange w f = w := by cases f <;> simp [onFileChange, hopen]
  have h3 : onInput w = { world := w } := by simp [onInput, hopen]
  rw [h1, h2, h3]
  exact ⟨⟨rfl, rfl, rfl⟩, rfl, rfl, rfl, rfl, rfl, rfl, rfl, rfl, rfl⟩

/-- C6, witness: the claim on the freshly loaded page, which has no connection, and on
a page whose connection is closed while "hello" is typed. -/
theorem outbound_ignored_unless_open_witness :
    (initialWorld.ws = none ∧
      sendMessage toySubtle initialWorld "id-1" "t-1" [] = { world := initialWorld } ∧
      onFileChange initialWorld (some smallFile) = initialWorld ∧
      onInput initialWorld = { world := initialWorld }) ∧
    ((∃ c, closedWithText.ws = some c ∧ c.readyState ≠ 1) ∧
      jsTrim closedWithText.messageInput = "hello" ∧
      sendMessage toySubtle closedWithText "id-1" "t-1" [] = { world := closedWithText } ∧
      onFileChange closedWithText (some smallFile) = closedWithText ∧
      onInput closedWithText = { world := closedWithText }) :=
  ⟨⟨rfl, (outbound_ignored_unless_open toySubtle initialWorld "id-1" "t-1" []
      (some smallFile) (Or.inl rfl)).1⟩,
    ⟨⟨{ room := "orbit", name := "A", password := "", readyState := 3 }, by decide, by decide⟩,
      by decide,
      (outbound_ignored_unless_open toySubtle closedWithText "id-1" "t-1" []
        (some smallFile)
        (Or.inr ⟨{ room := "orbit", name := "A", password := "", readyState := 3 },
          by decide, by decide⟩)).1⟩⟩

/-- C7: a selected file of more than 2 MiB (2 * 1024 * 1024 = 2097152 bytes) is
rejected before anything is built: the handler either returns at the connection check
or raises the alert, so no read is started, nothing is sent, no bubble is appended and
`state.myMsgs` is unchanged. A file of at most 2097152 bytes passes the size check: on
an open connection its read is started and no alert is raised. -/
theorem file_size_check (w : World) (f : FileInfo) :
    (2 * 1024 * 1024 : Nat) = 2097152 ∧
    (2097152 < f.size →
      onFileChange w (some f) = (if wsOpen w then alert w "Max 2 MB for demo." else w) ∧
      (onFileChange w (some f)).reads = w.reads ∧
      (onFileChange w (some f)).ws = w.ws ∧
      (onFileChange w (some f)).messages = w.messages ∧
      (onFileChange w (some f)).state = w.state) ∧
    (f.size ≤ 2097152 → wsOpen w = true →
      onFileChange w (some f) = { w with reads := w.reads ++ [f] }) := by
  refine ⟨rfl, ?_, ?_⟩
  · intro hbig
    have hb : f.size > 2 * 1024 * 1024 := by omega
    cases hopen : wsOpen w <;> simp [onFileChange, hopen, hb, alert]
  · intro hsmall hopen
    have hb : ¬ f.size > 2 * 1024 * 1024 := by omega
    simp [onFileChange, hopen, hb]

/-- C7, witness: a file of 3 MiB on an open connection is rejected, one of exactly
2097152 bytes is read. -/
theorem file_size_check_witness :
    (2097152 < bigFile.size ∧ (onFileChange plainSession (some bigFile)).reads = []) ∧
    ((2097152 : Nat) ≤ 2097152 ∧ wsOpen plainSession = true ∧
      onFileChange plainSession (some { name := "edge.bin", size := 2097152 }) =
        { plainSession with
          reads := plainSession.reads ++ [{ name := "edge.bin", size := 2097152 }] }) :=
  ⟨⟨by decide, ((file_size_check plainSession bigFile).2.1 (by decide)).2.1⟩,
    ⟨by decide, by decide,
      (file_size_check plainSession { name := "edge.bin", size := 2097152 }).2.2
        (by decide) (by decide)⟩⟩

/-- Marking a badge twice is marking it once. -/
theorem markSeen_idem (l : List Bubble) (n : Nat) :
    markSeen (markSeen l n) n = markSeen l n := by
  induction l generalizing n with
  | nil => rfl
  | cons b bs ih =>
    cases n with
    | zero => rfl
    | succ n => simp [markSeen, ih]

/-- Marking a badge leaves every other bubble as it was. -/
theorem markSeen_getElem?_of_ne (l : List Bubble) (n i : Nat) (h : i ≠ n) :
    (markSeen l n)[i]? = l[i]? := by
  induction l generalizing n i with
  | nil => rfl
  | cons b bs ih =>
    cases n with
    | zero =>
      cases i with
      | zero => exact absurd rfl h
      | succ i => simp [markSeen]
    | succ n =>
      cases i with
      | zero => simp [markSeen]
      | succ i =>
        simp only [markSeen, List.getElem?_cons_succ]
        exact ih n i (by omega)

/-- Marking a badge changes nothing but the badge text of that bubble. -/
theorem markSeen_getElem? (l : List Bubble) (n : Nat) :
    (markSeen l n)[n]? = l[n]?.map fun b => { b with badge := "✨ seen" } := by
  induction l generalizing n with
  | nil => rfl
  | cons b bs ih =>
    cases n with
    | zero => simp [markSeen]
    | succ n =>
      simp only [markSeen, List.getElem?_cons_succ]
      exact ih n

/-- C8: handling an inbound `seen` envelope is idempotent and total. For every page
and every `messageId`, the handler does not throw, sends nothing and leaves `state`
(so the delivery map) as it was; handling the envelope a second time gives the same
outcome as handling it once; for an id that is not in `state.myMsgs` the page is
unchanged; for a tracked id the only change is that the badge of the tracked bubble
reads "✨ seen", every other bubble being untouched. -/
theorem seen_idempotent_total (S : Subtle) (w : World) (data : Inbound)
    (ht : data.type = .str "seen") :
    onmessage S (onmessage S w data).world data = onmessage S w data ∧
    (onmessage S w data).threw = false ∧
    (onmessage S w data).world.ws = w.ws ∧
    (onmessage S w data).world.state = w.state ∧
    (mapGet w.state.myMsgs data.messageId = none → onmessage S w data = { world := w }) ∧
    (∀ badge, mapGet w.state.myMsgs data.messageId = some badge →
      (onmessage S w data).world = { w with messages := markSeen w.messages badge } ∧
      (onmessage S w data).world.messages[badge]? =
        w.messages[badge]?.map (fun b => { b with badge := "✨ seen" }) ∧
      ∀ i, i ≠ badge → (onmessage S w data).world.messages[i]? = w.messages[i]?) := by
  cases h : mapGet w.state.myMsgs data.messageId with
  | none =>
    have e : onmessage S w data = { world := w } := by
      rw [onmessage_seen S w data ht, h]
    rw [e]
    refine ⟨e, rfl, rfl, rfl, fun _ => rfl, fun b hb => by cases hb⟩
  | some badge =>
    have e : onmessage S w data =
        { world := { w with messages := markSeen w.messages badge } } := by
      rw [onmessage_seen S w data ht, h]
    have e2 : onmessage S { w with messages := markSeen w.messages badge } data =
        { world := { w with messages := markSeen w.messages badge } } := by
      rw [onmessage_seen S _ data ht]
      show (match mapGet w.state.myMsgs data.messageId with
        | some b => ({ world := { w with messages := markSeen (markSeen w.messages badge) b } } : Outcome)
        | none => { world := { w with messages := markSeen w.messages badge } }) = _
      rw [h]
      simp only [markSeen_idem]
    rw [e]
    refine ⟨e2, rfl, rfl, rfl, (fun hb => by cases hb), ?_⟩
    intro b hb
    cases hb
    exact ⟨rfl, markSeen_getElem? _ _, fun i hi => markSeen_getElem?_of_ne _ _ i hi⟩

/-- C8, witness: the claim for the `seen` envelope of a message nobody tracks, and
for the one of the message that `sentHello` tracks. -/
theorem seen_idempotent_total_witness :
    ({ type := .str "seen", messageId := .str "m9" } : Inbound).type = .str "seen" ∧
    mapGet plainSession.state.myMsgs (.str "m9") = none ∧
    onmessage toySubtle plainSession { type := .str "seen", messageId := .str "m9" } =
      { world := plainSession } ∧
    mapGet sentHello.state.myMsgs (.str "id-1") = some 0 ∧
    (onmessage toySubtle sentHello { type := .str "seen", messageId := .str "id-1" }).world =
      { sentHello with messages := markSeen sentHello.messages 0 } ∧
    onmessage toySubtle
        (onmessage toySubtle sentHello { type := .str "seen", messageId := .str "id-1" }).world
        { type := .str "seen", messageId := .str "id-1" } =
      onmessage toySubtle sentHello { type := .str "seen", messageId := .str "id-1" } :=
  ⟨rfl, by decide,
    (seen_idempotent_total toySubtle plainSession
      { type := .str "seen", messageId := .str "m9" } rfl).2.2.2.2.1 (by decide),
    by decide,
    ((seen_idempotent_total toySubtle sentHello
      { type := .str "seen", messageId := .str "id-1" } rfl).2.2.2.2.2 0 (by decide)).1,
    (seen_idempotent_total toySubtle sentHello
      { type := .str "seen", messageId := .str "id-1" } rfl).1⟩

/-! ## Timers -/

theorem foldl_runTimer_typingHidden (l : List Timer) (w : World) :
    (l.foldl runTimer w).typingHidden =
      (w.typingHidden || l.any fun t => t.action == .hideTyping) := by
  induction l generalizing w with
  | nil => simp
  | cons t ts ih =>
    have hne : (TimerAction.clearPresence == TimerAction.hideTyping) = false := by decide
    rw [List.foldl_cons, ih]
    cases ha : t.action <;> simp [runTimer, ha, hne]

theorem foldl_runTimer_frame (l : List Timer) (w : World) :
    (l.foldl runTimer w).timers = w.timers ∧ (l.foldl runTimer w).state = w.state ∧
    (l.foldl runTimer w).now = w.now ∧ (l.foldl runTimer w).nextTimer = w.nextTimer ∧
    (l.foldl runTimer w).ws = w.ws := by
  induction l generalizing w with
  | nil => simp
  | cons t ts ih =>
    rw [List.foldl_cons]
    obtain ⟨h1, h2, h3, h4, h5⟩ := ih (runTimer w t)
    rw [h1, h2, h3, h4, h5]
    cases ha : t.action <;> simp [runTimer, ha]

theorem any_insertionSort (r : Timer → Timer → Prop) [DecidableRel r] (p : Timer → Bool)
    (l : List Timer) : (l.insertionSort r).any p = l.any p := by
  rw [Bool.eq_iff_iff, List.any_eq_true, List.any_eq_true]
  constructor
  · rintro ⟨x, hx, hp⟩
    exact ⟨x, (List.perm_insertionSort r l).mem_iff.1 hx, hp⟩
  · rintro ⟨x, hx, hp⟩
    exact ⟨x, (List.perm_insertionSort r l).mem_iff.2 hx, hp⟩

/-- What `advanceTo` does when the clock moves forward. -/
theorem advanceTo_forward (w : World) (t : Nat) (h : w.now ≤ t) :
    (advanceTo w t).timers = w.timers.filter (fun x => decide (t < x.due)) ∧
    (advanceTo w t).state = w.state ∧
    (advanceTo w t).now = t ∧
    (advanceTo w t).ws = w.ws ∧
    (advanceTo w t).typingHidden =
      (w.typingHidden ||
        (w.timers.filter fun x => x.action == .hideTyping).any fun x => decide (x.due ≤ t)) := by
  have hlt : ¬ t < w.now := by omega
  have e : advanceTo w t =
      { (((w.timers.filter fun x => decide (x.due ≤ t)).insertionSort
            fun a b => a.due ≤ b.due).foldl runTimer
          { w with timers := w.timers.filter fun x => decide (t < x.due) }) with now := t } := by
    simp only [advanceTo, hlt, if_false]
  obtain ⟨h1, h2, -, -, h5⟩ := foldl_runTimer_frame
    ((w.timers.filter fun x => decide (x.due ≤ t)).insertionSort fun a b => a.due ≤ b.due)
    { w with timers := w.timers.filter fun x => decide (t < x.due) }
  rw [e]
  refine ⟨h1, h2, rfl, h5, ?_⟩
  show (List.foldl runTimer _ _).typingHidden = _
  rw [foldl_runTimer_typingHidden, any_insertionSort, List.any_filter, List.any_filter]
  congr 1
  apply congrArg (fun f => List.any w.timers f)
  funext x
  exact Bool.and_comm _ _

theorem advanceTo_backward (w : World) (t : Nat) (h : t < w.now) : advanceTo w t = w := by
  simp [advanceTo, h]

theorem TimerInv_of_eq (w v : World) (h1 : v.timers = w.timers)
    (h2 : v.state.typingTimeout = w.state.typingTimeout) (h : TimerInv w) : TimerInv v := by
  unfold TimerInv pendingHideTimers at *
  rw [h1, h2]
  exact h

theorem attachBubble_timer (w : World) (b : Bubble) (self : Bool) (id : JVal) :
    (attachBubble w b self id).timers = w.timers ∧
    (attachBubble w b self id).state.typingTimeout = w.state.typingTimeout := by
  refine ⟨rfl, ?_⟩
  show (if (self && id.truthy) = true then _ else w.state).typingTimeout = _
  split <;> rfl

theorem appendFileBubble_timer (w w1 : World) (name data filename ts : JVal) (self : Bool)
    (id : JVal) (h : appendFileBubble w name data filename ts self id = some w1) :
    w1.timers = w.timers ∧ w1.state.typingTimeout = w.state.typingTimeout := by
  cases data <;> simp [appendFileBubble] at h
  subst h
  exact attachBubble_timer _ _ _ _

theorem notify_timer (w : World) (title body : String) :
    (notify w title body).timers = w.timers ∧
    (notify w title body).state.typingTimeout = w.state.typingTimeout := by
  unfold notify
  split <;> exact ⟨rfl, rfl⟩

theorem wsSend_timer (w w1 : World) (frame : Frame) (h : wsSend w frame = some w1) :
    w1.timers = w.timers ∧ w1.state.typingTimeout = w.state.typingTimeout := by
  unfold wsSend at h
  split at h
  · cases h
  · split at h
    · cases h
    · split at h <;> (cases h; exact ⟨rfl, rfl⟩)

theorem updateUsers_timer (w w1 : World) (list : JVal) (h : updateUsers w list = some w1) :
    w1.timers = w.timers ∧ w1.state.typingTimeout = w.state.typingTimeout := by
  cases list <;> simp [updateUsers] at h
  subst h
  exact ⟨rfl, rfl⟩

/-- Outside the `typing` and `presence` branches `onmessage` leaves the timers and the
recorded timer id as they were. -/
theorem onmessage_timer (S : Subtle) (w : World) (data : Inbound)
    (h2 : data.type ≠ .str "presence") (h3 : data.type ≠ .str "typing") :
    (onmessage S w data).world.timers = w.timers ∧
    (onmessage S w data).world.state.typingTimeout = w.state.typingTimeout := by
  by_cases h1 : data.type = .str "users"
  · rw [onmessage_users S w data h1]
    cases h : updateUsers w data.list with
    | none => exact ⟨rfl, rfl⟩
    | some w1 => exact updateUsers_timer w w1 _ h
  by_cases h4 : data.type = .str "message"
  · simp only [onmessage, h4]
    simp only [JVal.str.injEq, String.reduceEq, if_false, if_true, reduceCtorEq]
    have ha := attachBubble_timer w
      { self := false, fileCard := false, name := data.name.toStr, ts := data.ts,
        body := .text (displayText S w.state data.text data.encrypted).toTextContent }
      false data.messageId
    have hn := notify_timer (appendTextBubble w data.name
      (displayText S w.state data.text data.encrypted) data.ts false data.messageId)
      data.name.toStr (displayText S w.state data.text data.encrypted).toBody
    split
    · rename_i w3 h
      have hs := wsSend_timer _ _ _ h
      exact ⟨hs.1.trans (hn.1.trans ha.1), hs.2.trans (hn.2.trans ha.2)⟩
    · exact ⟨hn.1.trans ha.1, hn.2.trans ha.2⟩
  by_cases h5 : data.type = .str "file"
  · simp only [onmessage, h5]
    simp only [JVal.str.injEq, String.reduceEq, if_false, if_true, reduceCtorEq]
    split
    · exact ⟨rfl, rfl⟩
    · rename_i w1 hf
      have ha := appendFileBubble_timer _ _ _ _ _ _ _ _ hf
      have hn := notify_timer w1 data.name.toStr ("Sent file: " ++ data.filename.toStr)
      split
      · rename_i w3 h
        have hs := wsSend_timer _ _ _ h
        exact ⟨hs.1.trans (hn.1.trans ha.1), hs.2.trans (hn.2.trans ha.2)⟩
      · exact ⟨hn.1.trans ha.1, hn.2.trans ha.2⟩
  by_cases h6 : data.type = .str "seen"
  · rw [onmessage_seen S w data h6]
    cases mapGet w.state.myMsgs data.messageId <;> exact ⟨rfl, rfl⟩
  by_cases h7 : data.type = .str "error"
  · rw [onmessage_error S w data h7]; exact ⟨rfl, rfl⟩
  rw [onmessage_unknown S w data h1 h2 h3 h4 h5 h6 h7]
  exact ⟨rfl, rfl⟩

theorem renderHistory_timer (S : Subtle) (items : List HistoryItem) (w : World) :
    (renderHistory S w items).timers = w.timers ∧
    (renderHistory S w items).state.typingTimeout = w.state.typingTimeout := by
  induction items generalizing w with
  | nil => exact ⟨rfl, rfl⟩
  | cons m rest ih =>
    unfold renderHistory
    split
    · split
      · exact ⟨rfl, rfl⟩
      · rename_i w1 hf
        have ha := appendFileBubble_timer _ _ _ _ _ _ _ _ hf
        have hr := ih w1
        exact ⟨hr.1.trans ha.1, hr.2.trans ha.2⟩
    · have ha := attachBubble_timer w
        { self := (m.sender == .str w.state.name), fileCard := false, name := m.sender.toStr,
          ts := m.ts,
          body := .text (displayText S w.state m.message m.encrypted).toTextContent }
        (m.sender == .str w.state.name) .null
      have hr := ih (appendTextBubble w m.sender (displayText S w.state m.message m.encrypted)
        m.ts (m.sender == .str w.state.name) .null)
      exact ⟨hr.1.trans ha.1, hr.2.trans ha.2⟩

theorem join_timer (S : Subtle) (w : World) (room name password : String) (e2e : Bool)
    (history : Option (List HistoryItem)) :
    (join S w room name password e2e history).timers = w.timers ∧
    (join S w room name password e2e history).state.typingTimeout = w.state.typingTimeout := by
  unfold join
  simp only
  split
  · exact ⟨rfl, rfl⟩
  split
  · exact ⟨rfl, rfl⟩
  cases history with
  | none =>
    refine ⟨rfl, ?_⟩
    simp only
    split <;> rfl
  | some items =>
    have hr := renderHistory_timer S items
    simp only
    refine ⟨(hr _).1, ?_⟩
    refine (hr _).2.trans ?_
    simp only
    split <;> rfl

theorem sendMessage_timer (S : Subtle) (w : World) (id ts : String) (iv : List Byte) :
    (sendMessage S w id ts iv).world.timers = w.timers ∧
    (sendMessage S w id ts iv).world.state.typingTimeout = w.state.typingTimeout := by
  unfold sendMessage
  simp only
  split
  · exact ⟨rfl, rfl⟩
  split
  · exact ⟨rfl, rfl⟩
  rename_i frame _
  split
  · exact ⟨rfl, rfl⟩
  · rename_i w1 hs
    have h1 := wsSend_timer _ _ _ hs
    have ha := attachBubble_timer w1
      { self := true, fileCard := false, name := (JVal.str w1.state.name).toStr,
        ts := .str ts,
        body := .text (JVal.str (if w1.state.e2e then "[You: Encrypted]"
          else jsTrim w.messageInput)).toTextContent } true (.str id)
    exact ⟨ha.1.trans h1.1, ha.2.trans h1.2⟩

theorem onInput_timer (w : World) :
    (onInput w).world.timers = w.timers ∧
    (onInput w).world.state.typingTimeout = w.state.typingTimeout := by
  unfold onInput
  split
  · split
    · rename_i w1 hs
      exact wsSend_timer _ _ _ hs
    · exact ⟨rfl, rfl⟩
  · exact ⟨rfl, rfl⟩

theorem onFileChange_timer (w : World) (f : Option FileInfo) :
    (onFileChange w f).timers = w.timers ∧
    (onFileChange w f).state.typingTimeout = w.state.typingTimeout := by
  unfold onFileChange
  split
  · exact ⟨rfl, rfl⟩
  · split
    · exact ⟨rfl, rfl⟩
    · split <;> exact ⟨rfl, rfl⟩

theorem readerOnload_timer (w : World) (result id ts : String) :
    (readerOnload w result id ts).world.timers = w.timers ∧
    (readerOnload w result id ts).world.state.typingTimeout = w.state.typingTimeout := by
  unfold readerOnload
  split
  · exact ⟨rfl, rfl⟩
  · simp only
    split
    · exact ⟨rfl, rfl⟩
    · rename_i w1 hs
      have h1 := wsSend_timer _ _ _ hs
      split
      · exact h1
      · rename_i w2 hf
        have ha := appendFileBubble_timer _ _ _ _ _ _ _ _ hf
        exact ⟨ha.1.trans h1.1, ha.2.trans h1.2⟩

/-- After a `typing` pulse on a page that satisfies the invariant: the indicator is
shown, and the one pending hide timer is the new one, due 800 ms later. -/
theorem typing_pulse_spec (S : Subtle) (w : World) (hinv : TimerInv w) :
    (onmessage S w typingPulse).world.typingHidden = false ∧
    ((onmessage S w typingPulse).world.timers.filter fun t => t.action == .hideTyping) =
      [{ id := w.nextTimer, due := w.now + 800, action := .hideTyping }] ∧
    (onmessage S w typingPulse).world.now = w.now ∧
    (onmessage S w typingPulse).world.state.typingTimeout = some w.nextTimer ∧
    TimerInv (onmessage S w typingPulse).world := by
  have hold : ((clearTimeout w w.state.typingTimeout).timers.filter
      fun t => t.action == .hideTyping) = [] := by
    rw [List.filter_eq_nil_iff]
    intro t ht hhide
    have hact : t.action = .hideTyping := by simpa using hhide
    cases htt : w.state.typingTimeout with
    | none =>
      rw [htt] at ht
      have := hinv.1 t ht hact
      rw [htt] at this
      cases this
    | some i =>
      rw [htt] at ht
      simp only [clearTimeout, List.mem_filter, bne_iff_ne, ne_eq] at ht
      have := hinv.1 t ht.1 hact
      rw [htt] at this
      exact ht.2 (Option.some.inj this).symm
  have hnew : ((clearTimeout w w.state.typingTimeout).timers ++
      [({ id := w.nextTimer, due := w.now + 800, action := .hideTyping } : Timer)]).filter
      (fun t => t.action == .hideTyping) =
      [{ id := w.nextTimer, due := w.now + 800, action := .hideTyping }] := by
    rw [List.filter_append, hold]
    rfl
  rw [onmessage_typing S w typingPulse rfl]
  refine ⟨rfl, hnew, rfl, rfl, ?_, ?_⟩
  · intro t ht hact
    have hmem : t ∈ ((clearTimeout w w.state.typingTimeout).timers ++
        [({ id := w.nextTimer, due := w.now + 800, action := .hideTyping } : Timer)]).filter
        (fun t => t.action == .hideTyping) :=
      List.mem_filter.2 ⟨ht, by simp [hact]⟩
    rw [hnew] at hmem
    rw [List.mem_singleton.1 hmem]
  · show (List.filter _ _).length ≤ 1
    rw [hnew]
    exact Nat.le_refl 1

theorem TimerInv_presence (S : Subtle) (w : World) (data : Inbound)
    (ht : data.type = .str "presence") (hinv : TimerInv w) :
    TimerInv (onmessage S w data).world := by
  rw [onmessage_presence S w data ht]
  constructor
  · intro t hmem hact
    rcases List.mem_append.1 hmem with h | h
    · exact hinv.1 t h hact
    · rw [List.mem_singleton.1 h] at hact
      cases hact
  · show (List.filter _ (w.timers ++ _)).length ≤ 1
    rw [List.filter_append]
    simpa [pendingHideTimers] using hinv.2

theorem TimerInv_onmessage (S : Subtle) (w : World) (data : Inbound) (hinv : TimerInv w) :
    TimerInv (onmessage S w data).world := by
  by_cases h2 : data.type = .str "presence"
  · exact TimerInv_presence S w data h2 hinv
  by_cases h3 : data.type = .str "typing"
  · rw [onmessage_typing S w data h3, ← onmessage_typing S w typingPulse rfl]
    exact (typing_pulse_spec S w hinv).2.2.2.2
  · have h := onmessage_timer S w data h2 h3
    exact TimerInv_of_eq w _ h.1 h.2 hinv

theorem TimerInv_advanceTo (w : World) (t : Nat) (hinv : TimerInv w) :
    TimerInv (advanceTo w t) := by
  by_cases h : t < w.now
  · rw [advanceTo_backward w t h]; exact hinv
  · obtain ⟨h1, h2, -, -, -⟩ := advanceTo_forward w t (by omega)
    constructor
    · intro x hx hact
      rw [h1] at hx
      rw [h2]
      exact hinv.1 x (List.mem_filter.1 hx).1 hact
    · show (List.filter _ (advanceTo w t).timers).length ≤ 1
      rw [h1, List.filter_comm]
      exact Nat.le_trans (List.length_filter_le _ _) hinv.2

theorem TimerInv_step (S : Subtle) (w : World) (a : Action) (hinv : TimerInv w) :
    TimerInv (step S w a) := by
  cases a with
  | join room name password e2e history =>
    simp only [step]
    split
    · exact hinv
    · have h := join_timer S w room name password e2e history
      exact TimerInv_of_eq w _ h.1 h.2 hinv
  | socketOpen =>
    simp only [step]
    split
    · split
      · exact TimerInv_of_eq w _ rfl rfl hinv
      · exact hinv
    · exact hinv
  | socketClose =>
    simp only [step]
    split
    · exact TimerInv_of_eq w _ rfl rfl hinv
    · exact hinv
  | inbound data =>
    simp only [step]
    split
    · exact TimerInv_onmessage S w data hinv
    · exact hinv
  | input value =>
    have h := onInput_timer { w with messageInput := value }
    exact TimerInv_of_eq w _ h.1 h.2 hinv
  | send id ts iv =>
    have h := sendMessage_timer S w id ts iv
    exact TimerInv_of_eq w _ h.1 h.2 hinv
  | fileChange f =>
    have h := onFileChange_timer w f
    exact TimerInv_of_eq w _ h.1 h.2 hinv
  | fileLoaded result id ts =>
    have h := readerOnload_timer w result id ts
    exact TimerInv_of_eq w _ h.1 h.2 hinv
  | visibility hidden => exact TimerInv_of_eq w _ rfl rfl hinv
  | permission granted => exact TimerInv_of_eq w _ rfl rfl hinv
  | advance t => exact TimerInv_advanceTo w t hinv

theorem TimerInv_run (S : Subtle) (actions : List Action) (w : World) (hinv : TimerInv w) :
    TimerInv (run S w actions) := by
  induction actions generalizing w with
  | nil => exact hinv
  | cons a rest ih => exact ih (step S w a) (TimerInv_step S w a hinv)

theorem TimerInv_initial : TimerInv initialWorld :=
  ⟨fun t ht => (by cases ht), by decide⟩

theorem TimerInv_of_reachable (S : Subtle) (w : World) (h : Reachable S w) : TimerInv w := by
  obtain ⟨actions, rfl⟩ := h
  exact TimerInv_run S actions initialWorld TimerInv_initial

/-- A page whose only pending hide timer is due 800 ms after `p`, at a later time `t`:
the indicator is hidden exactly when the timer has run. -/
theorem advanceTo_armed (w : World) (p t i : Nat) (hnow : w.now = p) (hle : p ≤ t)
    (hvis : w.typingHidden = false)
    (hhide : (w.timers.filter fun x => x.action == .hideTyping) =
      [{ id := i, due := p + 800, action := .hideTyping }]) :
    (advanceTo w t).typingHidden = decide (p + 800 ≤ t) := by
  obtain ⟨-, -, -, -, h5⟩ := advanceTo_forward w t (by omega)
  rw [h5, hhide, hvis]
  simp

/-- A `typing` pulse at time `q` arms the page, whatever was pending before. -/
theorem pulse_arms (S : Subtle) (w : World) (q : Nat) (hinv : TimerInv w) (hnow : w.now ≤ q) :
    TimerInv (onmessage S (advanceTo w q) typingPulse).world ∧
    (onmessage S (advanceTo w q) typingPulse).world.now = q ∧
    (onmessage S (advanceTo w q) typingPulse).world.typingHidden = false ∧
    ∃ i, ((onmessage S (advanceTo w q) typingPulse).world.timers.filter
        fun x => x.action == .hideTyping) =
      [{ id := i, due := q + 800, action := .hideTyping }] := by
  have hadv := TimerInv_advanceTo w q hinv
  obtain ⟨-, -, hq, -, -⟩ := advanceTo_forward w q hnow
  obtain ⟨h1, h2, h3, -, h5⟩ := typing_pulse_spec S (advanceTo w q) hadv
  refine ⟨h5, h3.trans hq, h1, (advanceTo w q).nextTimer, ?_⟩
  rw [h2, hq]

theorem chain_le_of_mem (q : Nat) (rest : List Nat)
    (hc : List.Chain (fun a b => a ≤ b ∧ b < a + 800) q rest) :
    ∀ x ∈ rest, q ≤ x := by
  induction rest generalizing q with
  | nil => intro x hx; cases hx
  | cons r rest ih =>
    intro x hx
    rw [List.chain_cons] at hc
    rcases List.mem_cons.1 hx with h | h
    · rw [h]; exact hc.1.1
    · exact Nat.le_trans hc.1.1 (ih r hc.2 x h)

/-- The loop of `afterPulses` from an armed page. -/
theorem pulses_loop (S : Subtle) (rest : List Nat) (w : World) (p t i : Nat)
    (hinv : TimerInv w) (hnow : w.now = p) (hvis : w.typingHidden = false)
    (hhide : (w.timers.filter fun x => x.action == .hideTyping) =
      [{ id := i, due := p + 800, action := .hideTyping }])
    (hc : List.Chain (fun a b => a ≤ b ∧ b < a + 800) p rest) (hle : p ≤ t) :
    typingVisible (advanceTo ((rest.filter fun x => decide (x ≤ t)).foldl
        (fun v x => (onmessage S (advanceTo v x) typingPulse).world) w) t) =
      decide (t < (p :: rest).getLast (List.cons_ne_nil p rest) + 800) := by
  induction rest generalizing w p i with
  | nil =>
    simp only [List.filter_nil, List.foldl_nil, typingVisible, List.getLast_singleton]
    rw [advanceTo_armed w p t i hnow hle hvis hhide]
    by_cases h : p + 800 ≤ t
    · have h2 : ¬ t < p + 800 := by omega
      simp [h, h2]
    · have h2 : t < p + 800 := by omega
      simp [h, h2]
  | cons q rest ih =>
    rw [List.chain_cons] at hc
    obtain ⟨⟨hpq, hqp⟩, hc2⟩ := hc
    rw [List.getLast_cons (List.cons_ne_nil q rest)]
    by_cases hq : q ≤ t
    · rw [List.filter_cons_of_pos (by simpa using hq), List.foldl_cons]
      obtain ⟨a1, a2, a3, j, a4⟩ := pulse_arms S w q hinv (by omega)
      exact ih _ q j a1 a2 a3 a4 hc2 hq
    · have hnil : ((q :: rest).filter fun x => decide (x ≤ t)) = [] := by
        rw [List.filter_eq_nil_iff]
        intro x hx
        have hqx : q ≤ x := by
          rcases List.mem_cons.1 hx with h | h
          · rw [h]
          · exact chain_le_of_mem q rest hc2 x h
        simp only [decide_eq_true_eq]
        omega
      have hlast : q ≤ (q :: rest).getLast (List.cons_ne_nil q rest) := by
        rcases List.mem_cons.1 (List.getLast_mem (List.cons_ne_nil q rest)) with h | h
        · rw [h]
        · exact chain_le_of_mem q rest hc2 _ h
      rw [hnil, List.foldl_nil]
      simp only [typingVisible]
      rw [advanceTo_armed w p t i hnow hle hvis hhide]
      have h1 : ¬ p + 800 ≤ t := by omega
      have h2 : t < (q :: rest).getLast (List.cons_ne_nil q rest) + 800 := by omega
      simp [h1, h2]

/-- Pulses less than 800 ms apart keep the indicator shown until 800 ms after the last. -/
theorem afterPulses_visible (S : Subtle) (w : World) (p : Nat) (rest : List Nat) (t : Nat)
    (hinv : TimerInv w) (hnow : w.now ≤ p)
    (hc : List.Chain (fun a b => a ≤ b ∧ b < a + 800) p rest) (hle : p ≤ t) :
    typingVisible (afterPulses S w (p :: rest) t) =
      decide (t < (p :: rest).getLast (List.cons_ne_nil p rest) + 800) := by
  unfold afterPulses
  rw [List.filter_cons_of_pos (by simpa using hle), List.foldl_cons]
  obtain ⟨a1, a2, a3, j, a4⟩ := pulse_arms S w p hinv hnow
  exact pulses_loop S rest _ p t j a1 a2 a3 a4 hc hle

/-- The invariant holds all along `afterPulses`. -/
theorem TimerInv_afterPulses (S : Subtle) (w : World) (pulses : List Nat) (t : Nat)
    (hinv : TimerInv w) : TimerInv (afterPulses S w pulses t) := by
  unfold afterPulses
  apply TimerInv_advanceTo
  generalize (pulses.filter fun p => decide (p ≤ t)) = l
  induction l generalizing w with
  | nil => exact hinv
  | cons x xs ih =>
    rw [List.foldl_cons]
    exact ih _ (TimerInv_onmessage S _ typingPulse (TimerInv_advanceTo w x hinv))

/-- C9: the typing indicator as a state machine over time, in ms. On every page the
handlers can reach, (1) at most one timer that hides the indicator is pending;
(2) an inbound `typing` pulse shows the indicator and leaves exactly one pending hide
timer, the new one, due 800 ms later (the one pending before is cancelled);
(3) when pulses arrive at times `p :: rest`, each less than 800 ms after the one before,
the indicator is shown at every time `t` from the first pulse on exactly when `t` is
less than 800 ms after the last pulse, and at most one hide timer is pending
throughout; (4) for pulses at 0 and 500 on the loaded page the indicator is shown at
`t` exactly when `t < 1300`. -/
theorem typing_indicator_debounce (S : Subtle) (w : World) (hreach : Reachable S w) :
    pendingHideTimers w ≤ 1 ∧
    ((onmessage S w typingPulse).world.typingHidden = false ∧
      ((onmessage S w typingPulse).world.timers.filter fun t => t.action == .hideTyping) =
        [{ id := w.nextTimer, due := w.now + 800, action := .hideTyping }] ∧
      pendingHideTimers (onmessage S w typingPulse).world = 1) ∧
    (∀ (p : Nat) (rest : List Nat) (t : Nat), w.now ≤ p →
      List.Chain (fun a b => a ≤ b ∧ b < a + 800) p rest → p ≤ t →
      typingVisible (afterPulses S w (p :: rest) t) =
        decide (t < (p :: rest).getLast (List.cons_ne_nil p rest) + 800) ∧
      pendingHideTimers (afterPulses S w (p :: rest) t) ≤ 1) ∧
    (∀ t : Nat, typingVisible (afterPulses S initialWorld [0, 500] t) = decide (t < 1300)) := by
  have hinv := TimerInv_of_reachable S w hreach
  have hp := typing_pulse_spec S w hinv
  refine ⟨hinv.2, ⟨hp.1, hp.2.1, ?_⟩, ?_, ?_⟩
  · show (List.filter _ _).length = 1
    rw [hp.2.1]
    rfl
  · intro p rest t hnow hc hle
    exact ⟨afterPulses_visible S w p rest t hinv hnow hc hle,
      (TimerInv_afterPulses S w (p :: rest) t hinv).2⟩
  · intro t
    have h := afterPulses_visible S initialWorld 0 [500] t TimerInv_initial (Nat.le_refl 0)
      (List.Chain.cons ⟨by decide, by decide⟩ List.Chain.nil) (Nat.zero_le t)
    rw [h]
    rfl

/-- C9, witness: the claim on the page `plainSession`, with pulses at 0 and 500 read
at 1299 and 1300. -/
theorem typing_indicator_debounce_witness :
    Reachable toySubtle plainSession ∧
    pendingHideTimers plainSession ≤ 1 ∧
    (plainSession.now ≤ 0 ∧ List.Chain (fun a b => a ≤ b ∧ b < a + 800) 0 [500] ∧
      typingVisible (afterPulses toySubtle plainSession [0, 500] 1299) = true ∧
      pendingHideTimers (afterPulses toySubtle plainSession [0, 500] 1299) ≤ 1) ∧
    typingVisible (afterPulses toySubtle initialWorld [0, 500] 1299) = true ∧
    typingVisible (afterPulses toySubtle initialWorld [0, 500] 1300) = false :=
  ⟨⟨[.join "orbit" "A" "" false none, .socketOpen], rfl⟩,
    (typing_indicator_debounce toySubtle plainSession
      ⟨[.join "orbit" "A" "" false none, .socketOpen], rfl⟩).1,
    ⟨by decide, List.Chain.cons ⟨by decide, by decide⟩ List.Chain.nil,
      ((typing_indicator_debounce toySubtle plainSession
        ⟨[.join "orbit" "A" "" false none, .socketOpen], rfl⟩).2.2.1 0 [500] 1299 (by decide)
        (List.Chain.cons ⟨by decide, by decide⟩ List.Chain.nil) (by decide)).1.trans
        (by decide),
      ((typing_indicator_debounce toySubtle plainSession
        ⟨[.join "orbit" "A" "" false none, .socketOpen], rfl⟩).2.2.1 0 [500] 1299 (by decide)
        (List.Chain.cons ⟨by decide, by decide⟩ List.Chain.nil) (by decide)).2⟩,
    ((typing_indicator_debounce toySubtle plainSession
      ⟨[.join "orbit" "A" "" false none, .socketOpen], rfl⟩).2.2.2 1299).trans (by decide),
    ((typing_indicator_debounce toySubtle plainSession
      ⟨[.join "orbit" "A" "" false none, .socketOpen], rfl⟩).2.2.2 1300).trans (by decide)⟩

/-! ## Base64 -/

theorem b64Index_b64Char : ∀ i, i < 64 → b64Index (b64Char i) = some i := by decide

theorem b64Char_ne_pad : ∀ i, i < 64 → b64Char i ≠ '=' := by decide

theorem b64Char_not_space : ∀ i, i < 64 → isAsciiWhitespace (b64Char i) = false := by decide

/-- Every sextet of a list of bytes is below 64. -/
theorem sextets_lt : ∀ (bs : List Nat), (∀ b ∈ bs, b < 256) → ∀ s ∈ sextets bs, s < 64
  | [], _ => by intro s hs; cases hs
  | [a], h => by
    have ha := h a (by simp)
    intro s hs
    simp only [sextets, List.mem_cons, List.mem_singleton, List.not_mem_nil, or_false] at hs
    rcases hs with rfl | rfl <;> omega
  | [a, b], h => by
    have ha := h a (by simp)
    have hb := h b (by simp)
    intro s hs
    simp only [sextets, List.mem_cons, List.mem_singleton, List.not_mem_nil, or_false] at hs
    rcases hs with rfl | rfl | rfl <;> omega
  | a :: b :: c :: rest, h => by
    have ha := h a (by simp)
    have hb := h b (by simp)
    have hc := h c (by simp)
    have ih := sextets_lt rest (fun x hx => h x (by simp [hx]))
    intro s hs
    simp only [sextets, List.mem_cons] at hs
    rcases hs with rfl | rfl | rfl | rfl | hs
    · omega
    · omega
    · omega
    · omega
    · exact ih s hs

/-- The number of sextets is never 1 modulo 4. -/
theorem sextets_length : ∀ (bs : List Nat), (sextets bs).length % 4 ≠ 1
  | [] => by simp [sextets]
  | [_] => by simp [sextets]
  | [_, _] => by simp [sextets]
  | _ :: _ :: _ :: rest => by
    have ih := sextets_length rest
    simp only [sextets, List.length_cons]
    omega

/-- The output of `encodeTriples` is the characters of the sextets followed by no, one
or two `=`, and its length is a multiple of four. -/
theorem encodeTriples_eq : ∀ (bs : List Nat),
    (encodeTriples bs).length % 4 = 0 ∧
    (encodeTriples bs = (sextets bs).map b64Char ∨
      encodeTriples bs = (sextets bs).map b64Char ++ ['='] ∨
      encodeTriples bs = ((sextets bs).map b64Char ++ ['=']) ++ ['='])
  | [] => ⟨rfl, Or.inl rfl⟩
  | [_] => ⟨by simp [encodeTriples], Or.inr (Or.inr rfl)⟩
  | [_, _] => ⟨by simp [encodeTriples], Or.inr (Or.inl rfl)⟩
  | a :: b :: c :: rest => by
    obtain ⟨hl, h⟩ := encodeTriples_eq rest
    constructor
    · simp only [encodeTriples, List.length_cons]
      omega
    · rcases h with h | h | h
      · left; simp only [encodeTriples, sextets, List.map_cons, h]
      · right; left
        simp only [encodeTriples, sextets, List.map_cons, h, List.cons_append]
      · right; right
        simp only [encodeTriples, sextets, List.map_cons, h, List.cons_append]

theorem getLast?_map_b64Char_ne (sx : List Nat) (h : ∀ s ∈ sx, s < 64) :
    (sx.map b64Char).getLast? ≠ some '=' := by
  rw [List.getLast?_map]
  cases hl : sx.getLast? with
  | none => simp
  | some s =>
    have hs : s ∈ sx := List.mem_of_getLast?_eq_some hl
    simp only [Option.map_some', ne_eq, Option.some.injEq]
    exact b64Char_ne_pad s (h s hs)

/-- Step 2 of forgiving-base64 undoes the padding of `encodeTriples`. -/
theorem stripPadding_encodeTriples (bs : List Nat) (h : ∀ b ∈ bs, b < 256) :
    stripPadding (encodeTriples bs) = (sextets bs).map b64Char := by
  obtain ⟨hl, he⟩ := encodeTriples_eq bs
  have hne := getLast?_map_b64Char_ne (sextets bs) (sextets_lt bs h)
  unfold stripPadding
  rw [if_pos hl]
  rcases he with he | he | he
  · rw [he, if_neg hne]
  · rw [he, List.getLast?_concat, if_pos rfl, List.dropLast_concat, if_neg hne]
  · rw [he, List.getLast?_concat, if_pos rfl, List.dropLast_concat, List.getLast?_concat,
      if_pos rfl, List.dropLast_concat]

theorem filter_encodeTriples (bs : List Nat) (h : ∀ b ∈ bs, b < 256) :
    ((encodeTriples bs).filter fun c => !isAsciiWhitespace c) = encodeTriples bs := by
  rw [List.filter_eq_self]
  intro c hc
  have hsx : ∀ c ∈ (sextets bs).map b64Char, isAsciiWhitespace c = false := by
    intro c hc
    obtain ⟨s, hs, rfl⟩ := List.mem_map.1 hc
    exact b64Char_not_space s (sextets_lt bs h s hs)
  have hpad : isAsciiWhitespace '=' = false := by decide
  obtain ⟨-, he⟩ := encodeTriples_eq bs
  rcases he with he | he | he <;> rw [he] at hc
  · simp [hsx c hc]
  · rcases List.mem_append.1 hc with h1 | h1
    · simp [hsx c h1]
    · rw [List.mem_singleton.1 h1]; simp [hpad]
  · rcases List.mem_append.1 hc with h1 | h1
    · rcases List.mem_append.1 h1 with h2 | h2
      · simp [hsx c h2]
      · rw [List.mem_singleton.1 h2]; simp [hpad]
    · rw [List.mem_singleton.1 h1]; simp [hpad]

theorem mapM_b64Index (sx : List Nat) (h : ∀ s ∈ sx, s < 64) :
    (sx.map b64Char).mapM b64Index = some sx := by
  induction sx with
  | nil => rfl
  | cons s rest ih =>
    rw [List.map_cons, List.mapM_cons, b64Index_b64Char s (h s (by simp)),
      ih (fun x hx => h x (by simp [hx]))]
    rfl

/-- The bit buffer of `atob` gives back the bytes whose sextets it reads. -/
theorem decodeQuads_sextets : ∀ (buf : List Byte), decodeQuads (sextets (buf.map Fin.val)) = buf
  | [] => rfl
  | [a] => by
    have ha := a.isLt
    simp only [List.map_cons, List.map_nil, sextets, decodeQuads, List.cons.injEq, and_true]
    apply Fin.ext
    simp only [toByte, Fin.ofNat, Fin.val_mk]
    omega
  | [a, b] => by
    have ha := a.isLt
    have hb := b.isLt
    simp only [List.map_cons, List.map_nil, sextets, decodeQuads, List.cons.injEq, and_true]
    constructor <;> apply Fin.ext <;> simp only [toByte, Fin.ofNat, Fin.val_mk] <;> omega
  | a :: b :: c :: rest => by
    have ha := a.isLt
    have hb := b.isLt
    have hc := c.isLt
    have ih := decodeQuads_sextets rest
    simp only [List.map_cons, sextets, decodeQuads, ih, List.cons.injEq, and_true]
    refine ⟨?_, ?_, ?_⟩ <;> apply Fin.ext <;> simp only [toByte, Fin.ofNat, Fin.val_mk] <;> omega

theorem toByte_val (b : Byte) : toByte b.val = b := by
  apply Fin.ext
  have := b.isLt
  simp only [toByte, Fin.ofNat, Fin.val_mk]
  omega

theorem charCodes_fromCharCode (buf : List Byte) : charCodes (fromCharCode buf) = buf := by
  simp only [charCodes, fromCharCode, List.map_map]
  conv_rhs => rw [← List.map_id buf]
  apply List.map_congr_left
  intro b _
  simp only [Function.comp, toNat_ofNat_byte, toByte_val, id]

/-- `atob` inverts `btoa` on the string of a byte buffer. -/
theorem atob_btoa (buf : List Byte) :
    ∃ blob, btoa (fromCharCode buf) = some blob ∧ atob blob = some (fromCharCode buf) := by
  have hb : ∀ b ∈ buf.map Fin.val, b < 256 := by
    intro b hb
    obtain ⟨x, -, rfl⟩ := List.mem_map.1 hb
    exact x.isLt
  refine ⟨_, btoa_fromCharCode buf, ?_⟩
  unfold atob
  simp only [filter_encodeTriples _ hb, stripPadding_encodeTriples _ hb]
  rw [if_neg (by rw [List.length_map]; exact sextets_length _),
    mapM_b64Index _ (sextets_lt _ hb)]
  simp only [decodeQuads_sextets]

/-- The base64 encoding of byte buffers is injective. -/
theorem btoa_fromCharCode_injective (b1 b2 : List Byte)
    (h : btoa (fromCharCode b1) = btoa (fromCharCode b2)) : b1 = b2 := by
  obtain ⟨x1, e1, d1⟩ := atob_btoa b1
  obtain ⟨x2, e2, d2⟩ := atob_btoa b2
  rw [e1, e2] at h
  have hx : x1 = x2 := Option.some.inj h
  rw [hx, d2] at d1
  have := congrArg charCodes (Option.some.inj d1)
  rw [charCodes_fromCharCode, charCodes_fromCharCode] at this
  exact this.symm

/-! ## UTF-8 -/

theorem toByte_val_of_lt (n : Nat) (h : n < 256) : (toByte n).val = n := by
  simp only [toByte, Fin.ofNat, Fin.val_mk]
  omega

/-- A continuation byte inside its bounds, when more bytes are needed after it. -/
theorem utf8Step_continue (d : Utf8Decoder) (b : Nat) (h0 : d.bytesNeeded ≠ 0)
    (hl : d.lower ≤ b) (hu : b ≤ d.upper) (hmore : d.bytesSeen + 1 ≠ d.bytesNeeded) :
    utf8Step d b =
      ({ codePoint := d.codePoint * 64 + b % 64, bytesSeen := d.bytesSeen + 1,
         bytesNeeded := d.bytesNeeded }, []) := by
  have hr : ¬ (b < d.lower ∨ d.upper < b) := by omega
  simp only [utf8Step, h0, hr, hmore, if_false]

/-- The last continuation byte of a sequence emits the code point. -/
theorem utf8Step_finish (d : Utf8Decoder) (b : Nat) (h0 : d.bytesNeeded ≠ 0)
    (hl : d.lower ≤ b) (hu : b ≤ d.upper) (hlast : d.bytesSeen + 1 = d.bytesNeeded) :
    utf8Step d b = ({}, [d.codePoint * 64 + b % 64]) := by
  have hr : ¬ (b < d.lower ∨ d.upper < b) := by omega
  simp only [utf8Step, h0, hr, hlast, if_false, if_true]

/-- The decoder reads back the bytes of one scalar value. -/
theorem utf8DecodeLoop_encode (c : Nat) (hv : c.isValidChar) (rest : List Byte) :
    utf8DecodeLoop {} (utf8EncodeCodePoint c ++ rest) = c :: utf8DecodeLoop {} rest := by
  have hrange : c < 0xd800 ∨ (0xdfff < c ∧ c < 0x110000) := hv
  by_cases h1 : c < 0x80
  · have e : utf8EncodeCodePoint c = [toByte c] := by simp only [utf8EncodeCodePoint, h1, if_true]
    have hs : utf8Step {} c = ({}, [c]) := by
      have : c ≤ 0x7F := by omega
      simp only [utf8Step, utf8Lead, this, if_true]
    rw [e]
    simp only [List.singleton_append, utf8DecodeLoop, toByte_val_of_lt c (by omega), hs]
    rfl
  by_cases h2 : c < 0x800
  · have e : utf8EncodeCodePoint c = [toByte (0xC0 + c / 64), toByte (0x80 + c % 64)] := by
      simp only [utf8EncodeCodePoint, h1, h2, if_true, if_false]
    have hs0 : utf8Step {} (0xC0 + c / 64) =
        ({ codePoint := (0xC0 + c / 64) % 32, bytesNeeded := 1 }, []) := by
      have a1 : ¬ (0xC0 + c / 64 ≤ 0x7F) := by omega
      have a2 : 0xC2 ≤ 0xC0 + c / 64 ∧ 0xC0 + c / 64 ≤ 0xDF := by omega
      simp only [utf8Step, utf8Lead, a1, a2, if_true, if_false, and_self]
    have hs1 : utf8Step { codePoint := (0xC0 + c / 64) % 32, bytesNeeded := 1 }
        (0x80 + c % 64) = ({}, [c]) := by
      rw [utf8Step_finish _ _ (by simp) (by show 0x80 ≤ _; omega) (by show _ ≤ 0xBF; omega)
        (by rfl)]
      simp only [Prod.mk.injEq, List.cons.injEq, and_true, true_and]
      omega
    rw [e]
    simp only [List.cons_append, List.nil_append, utf8DecodeLoop,
      toByte_val_of_lt (0xC0 + c / 64) (by omega), toByte_val_of_lt (0x80 + c % 64) (by omega),
      hs0, hs1]
    rfl
  by_cases h3 : c < 0x10000
  · have e : utf8EncodeCodePoint c =
        [toByte (0xE0 + c / 4096), toByte (0x80 + c / 64 % 64), toByte (0x80 + c % 64)] := by
      simp only [utf8EncodeCodePoint, h1, h2, h3, if_true, if_false]
    have hs0 : utf8Step {} (0xE0 + c / 4096) =
        ({ codePoint := (0xE0 + c / 4096) % 16, bytesNeeded := 2,
           lower := if 0xE0 + c / 4096 = 0xE0 then 0xA0 else 0x80,
           upper := if 0xE0 + c / 4096 = 0xED then 0x9F else 0xBF }, []) := by
      have a1 : ¬ (0xE0 + c / 4096 ≤ 0x7F) := by omega
      have a2 : ¬ (0xC2 ≤ 0xE0 + c / 4096 ∧ 0xE0 + c / 4096 ≤ 0xDF) := by omega
      have a3 : 0xE0 ≤ 0xE0 + c / 4096 ∧ 0xE0 + c / 4096 ≤ 0xEF := by omega
      simp only [utf8Step, utf8Lead, a1, a2, a3, if_true, if_false, and_self]
    have hs1 : utf8Step
        { codePoint := (0xE0 + c / 4096) % 16, bytesNeeded := 2,
           lower := if 0xE0 + c / 4096 = 0xE0 then 0xA0 else 0x80,
           upper := if 0xE0 + c / 4096 = 0xED then 0x9F else 0xBF }
        (0x80 + c / 64 % 64) =
        ({ codePoint := (0xE0 + c / 4096) % 16 * 64 + (0x80 + c / 64 % 64) % 64,
           bytesSeen := 1, bytesNeeded := 2 }, []) := by
      rw [utf8Step_continue _ _ (by simp)
        (by show (if _ then _ else _) ≤ _; split <;> omega)
        (by show _ ≤ (if _ then _ else _); split <;> omega) (by simp)]
    have hs2 : utf8Step
        { codePoint := (0xE0 + c / 4096) % 16 * 64 + (0x80 + c / 64 % 64) % 64,
           bytesSeen := 1, bytesNeeded := 2 } (0x80 + c % 64) = ({}, [c]) := by
      rw [utf8Step_finish _ _ (by simp) (by show 0x80 ≤ _; omega) (by show _ ≤ 0xBF; omega)
        (by rfl)]
      simp only [Prod.mk.injEq, List.cons.injEq, and_true, true_and]
      omega
    rw [e]
    simp only [List.cons_append, List.nil_append, utf8DecodeLoop,
      toByte_val_of_lt (0xE0 + c / 4096) (by omega),
      toByte_val_of_lt (0x80 + c / 64 % 64) (by omega),
      toByte_val_of_lt (0x80 + c % 64) (by omega), hs0, hs1, hs2]
    rfl
  · have e : utf8EncodeCodePoint c =
        [toByte (0xF0 + c / 262144), toByte (0x80 + c / 4096 % 64),
         toByte (0x80 + c / 64 % 64), toByte (0x80 + c % 64)] := by
      simp only [utf8EncodeCodePoint, h1, h2, h3, if_false]
    have hs0 : utf8Step {} (0xF0 + c / 262144) =
        ({ codePoint := (0xF0 + c / 262144) % 8, bytesNeeded := 3,
           lower := if 0xF0 + c / 262144 = 0xF0 then 0x90 else 0x80,
           upper := if 0xF0 + c / 262144 = 0xF4 then 0x8F else 0xBF }, []) := by
      have a1 : ¬ (0xF0 + c / 262144 ≤ 0x7F) := by omega
      have a2 : ¬ (0xC2 ≤ 0xF0 + c / 262144 ∧ 0xF0 + c / 262144 ≤ 0xDF) := by omega
      have a3 : ¬ (0xE0 ≤ 0xF0 + c / 262144 ∧ 0xF0 + c / 262144 ≤ 0xEF) := by omega
      have a4 : 0xF0 ≤ 0xF0 + c / 262144 ∧ 0xF0 + c / 262144 ≤ 0xF4 := by omega
      simp only [utf8Step, utf8Lead, a1, a2, a3, a4, if_true, if_false, and_self]
    have hs1 : utf8Step
        { codePoint := (0xF0 + c / 262144) % 8, bytesNeeded := 3,
           lower := if 0xF0 + c / 262144 = 0xF0 then 0x90 else 0x80,
           upper := if 0xF0 + c / 262144 = 0xF4 then 0x8F else 0xBF }
        (0x80 + c / 4096 % 64) =
        ({ codePoint := (0xF0 + c / 262144) % 8 * 64 + (0x80 + c / 4096 % 64) % 64,
           bytesSeen := 1, bytesNeeded := 3 }, []) := by
      rw [utf8Step_continue _ _ (by simp)
        (by show (if _ then _ else _) ≤ _; split <;> omega)
        (by show _ ≤ (if _ then _ else _); split <;> omega) (by simp)]
    have hs2 : utf8Step
        { codePoint := (0xF0 + c / 262144) % 8 * 64 + (0x80 + c / 4096 % 64) % 64,
          bytesSeen := 1, bytesNeeded := 3 } (0x80 + c / 64 % 64) =
        ({ codePoint := ((0xF0 + c / 262144) % 8 * 64 + (0x80 + c / 4096 % 64) % 64) * 64 +
            (0x80 + c / 64 % 64) % 64, bytesSeen := 2, bytesNeeded := 3 }, []) := by
      rw [utf8Step_continue _ _ (by simp) (by show 0x80 ≤ _; omega)
        (by show _ ≤ 0xBF; omega) (by simp)]
    have hs3 : utf8Step
        { codePoint := ((0xF0 + c / 262144) % 8 * 64 + (0x80 + c / 4096 % 64) % 64) * 64 +
            (0x80 + c / 64 % 64) % 64, bytesSeen := 2, bytesNeeded := 3 }
        (0x80 + c % 64) = ({}, [c]) := by
      rw [utf8Step_finish _ _ (by simp) (by show 0x80 ≤ _; omega) (by show _ ≤ 0xBF; omega)
        (by rfl)]
      simp only [Prod.mk.injEq, List.cons.injEq, and_true, true_and]
      omega
    rw [e]
    simp only [List.cons_append, List.nil_append, utf8DecodeLoop,
      toByte_val_of_lt (0xF0 + c / 262144) (by omega),
      toByte_val_of_lt (0x80 + c / 4096 % 64) (by omega),
      toByte_val_of_lt (0x80 + c / 64 % 64) (by omega),
      toByte_val_of_lt (0x80 + c % 64) (by omega), hs0, hs1, hs2, hs3]
    rfl

/-- The decoder reads back the scalar values of an encoded string. -/
theorem utf8DecodeLoop_textEncode (cs : List Char) :
    utf8DecodeLoop {} (cs.flatMap fun c => utf8EncodeCodePoint c.toNat) = cs.map Char.toNat := by
  induction cs with
  | nil => rfl
  | cons c rest ih =>
    rw [List.flatMap_cons, utf8DecodeLoop_encode c.toNat c.valid, ih, List.map_cons]

/-- `TextDecoder` gives back every string that does not begin with U+FEFF. -/
theorem textDecode_textEncode (s : String) (hbom : s.data.head? ≠ some (Char.ofNat 0xFEFF)) :
    textDecode (textEncode s) = s := by
  unfold textDecode textEncode
  rw [utf8DecodeLoop_textEncode]
  have hd : dropBOM (s.data.map Char.toNat) = s.data.map Char.toNat := by
    cases hs : s.data with
    | nil => rfl
    | cons c rest =>
      rw [hs] at hbom
      have hc : c.toNat ≠ 0xFEFF := by
        intro h
        apply hbom
        rw [List.head?_cons, ← h, Char.ofNat_toNat]
      simp only [List.map_cons]
      unfold dropBOM
      split
      · rename_i heq
        exact absurd (List.cons.inj heq).1 hc
      · rfl
  rw [hd, List.map_map]
  have hid : s.data.map (Char.ofNat ∘ Char.toNat) = s.data := by
    conv_rhs => rw [← List.map_id s.data]
    apply List.map_congr_left
    intro c _
    exact Char.ofNat_toNat c
  rw [hid]

/-- The first character of a trimmed string is not white space. -/
theorem jsTrim_head (s : String) (c : Char) (hc : (jsTrim s).data.head? = some c) :
    isJsSpace c = false := by
  obtain ⟨t, ht⟩ : ((s.data.dropWhile isJsSpace).reverse.dropWhile isJsSpace).reverse <+:
      s.data.dropWhile isJsSpace := List.rdropWhile_prefix isJsSpace _
  simp only [jsTrim] at hc
  have hnot := List.head?_dropWhile_not isJsSpace s.data
  cases hl : ((s.data.dropWhile isJsSpace).reverse.dropWhile isJsSpace).reverse with
  | nil => rw [hl] at hc; cases hc
  | cons a rest =>
    rw [hl] at hc ht
    rw [← ht] at hnot
    simp only [List.cons_append, List.head?_cons] at hnot hc
    cases hc
    exact hnot

/-- A trimmed string does not begin with U+FEFF, which `trim` counts as white space. -/
theorem jsTrim_no_bom (s : String) : (jsTrim s).data.head? ≠ some (Char.ofNat 0xFEFF) :=
  fun h => absurd (jsTrim_head s _ h) (by decide)

/-- The round trip through `encryptText` and `decryptText` under any key. -/
theorem decryptText_encryptText (S : Subtle) (k : CryptoKey) (plaintext : String)
    (iv : List Byte) (hiv : iv.length = 12)
    (haes : S.aesDecrypt k iv (S.aesEncrypt k iv (textEncode plaintext))
      = some (textEncode plaintext))
    (hbom : plaintext.data.head? ≠ some (Char.ofNat 0xFEFF)) :
    ∃ blob raw, encryptText S k iv plaintext = some blob ∧
      (atob blob).map charCodes = some raw ∧
      raw.take 12 = iv ∧
      raw.drop 12 = S.aesEncrypt k iv (textEncode plaintext) ∧
      decryptText S k blob = some plaintext := by
  obtain ⟨blob, hb, ha⟩ := atob_btoa (iv ++ S.aesEncrypt k iv (textEncode plaintext))
  have ht := @List.take_left' _ iv (S.aesEncrypt k iv (textEncode plaintext)) 12 hiv
  have hd := @List.drop_left' _ iv (S.aesEncrypt k iv (textEncode plaintext)) 12 hiv
  refine ⟨blob, _, hb, ?_, ht, hd, ?_⟩
  · rw [ha, Option.map_some', charCodes_fromCharCode]
  · simp only [decryptText, ha, charCodes_fromCharCode, ht, hd, haes,
      textDecode_textEncode plaintext hbom]

/-- The text that `sendMessage` encrypts is trimmed, so it always comes back. -/
theorem trimmed_text_roundtrip (S : Subtle) (k : CryptoKey) (input : String)
    (iv : List Byte) (hiv : iv.length = 12)
    (haes : S.aesDecrypt k iv (S.aesEncrypt k iv (textEncode (jsTrim input)))
      = some (textEncode (jsTrim input))) :
    ∃ blob, encryptText S k iv (jsTrim input) = some blob ∧
      decryptText S k blob = some (jsTrim input) := by
  obtain ⟨blob, _, hb, _, _, _, hdec⟩ :=
    decryptText_encryptText S k (jsTrim input) iv hiv haes (jsTrim_no_bom input)
  exact ⟨blob, hb, hdec⟩

/-! ## Claims about the CryptoEngine -/

/-- C2, counterexample: a plaintext that begins with U+FEFF comes back without it,
although decryption inverts encryption for the key and nonce at hand. -/
theorem bom_plaintext_not_restored :
    toySubtle.aesDecrypt (deriveKey toySubtle "secret42" "orbit")
        [1, 2, 3, 4, 5, 6, 7, 8, 9, 10, 11, 12]
        (toySubtle.aesEncrypt (deriveKey toySubtle "secret42" "orbit")
          [1, 2, 3, 4, 5, 6, 7, 8, 9, 10, 11, 12] (textEncode "\uFEFFhello"))
      = some (textEncode "\uFEFFhello") ∧
    (encryptText toySubtle (deriveKey toySubtle "secret42" "orbit")
        [1, 2, 3, 4, 5, 6, 7, 8, 9, 10, 11, 12] "\uFEFFhello").bind
      (decryptText toySubtle (deriveKey toySubtle "secret42" "orbit")) = some "hello" ∧
    "hello" ≠ "\uFEFFhello" := by
  decide

/-- C2, amended: for every plaintext `P` that does not begin with U+FEFF, every password
and room, and every 12-byte nonce, with `k = deriveKey(password, room)`: `encryptText`
returns a blob; `atob` decodes the blob into the same 12-byte nonce followed by the
same ciphertext; and, given that AES-GCM decryption inverts encryption under `k` and
the nonce, `decryptText(k, blob)` returns `P`. -/
theorem decrypt_encrypt_roundtrip (S : Subtle) (password room plaintext : String)
    (iv : List Byte) (hiv : iv.length = 12)
    (haes : S.aesDecrypt (deriveKey S password room) iv
        (S.aesEncrypt (deriveKey S password room) iv (textEncode plaintext))
      = some (textEncode plaintext))
    (hbom : plaintext.data.head? ≠ some (Char.ofNat 0xFEFF)) :
    ∃ blob raw, encryptText S (deriveKey S password room) iv plaintext = some blob ∧
      (atob blob).map charCodes = some raw ∧
      raw.take 12 = iv ∧
      raw.drop 12 = S.aesEncrypt (deriveKey S password room) iv (textEncode plaintext) ∧
      decryptText S (deriveKey S password room) blob = some plaintext := by
  exact decryptText_encryptText S (deriveKey S password room) plaintext iv hiv haes hbom

/-- C2, witness: the amended claim for "hello" under the stand-in primitives. -/
theorem decrypt_encrypt_roundtrip_witness :
    ([1, 2, 3, 4, 5, 6, 7, 8, 9, 10, 11, 12] : List Byte).length = 12 ∧
    ∃ blob raw, encryptText toySubtle (deriveKey toySubtle "secret42" "orbit")
        [1, 2, 3, 4, 5, 6, 7, 8, 9, 10, 11, 12] "hello" = some blob ∧
      (atob blob).map charCodes = some raw ∧
      raw.take 12 = [1, 2, 3, 4, 5, 6, 7, 8, 9, 10, 11, 12] ∧
      raw.drop 12 = toySubtle.aesEncrypt (deriveKey toySubtle "secret42" "orbit")
        [1, 2, 3, 4, 5, 6, 7, 8, 9, 10, 11, 12] (textEncode "hello") ∧
      decryptText toySubtle (deriveKey toySubtle "secret42" "orbit") blob = some "hello" :=
  ⟨by decide,
    decrypt_encrypt_roundtrip toySubtle "secret42" "orbit" "hello"
      [1, 2, 3, 4, 5, 6, 7, 8, 9, 10, 11, 12] (by decide) (by decide) (by decide)⟩

/-- C10: for every key and plaintext, two calls of `encryptText` whose 12-byte nonces
differ return different blobs: each call returns a blob, the first 12 bytes of the
buffer a blob encodes are the nonce of its call, and the encoding is injective. -/
theorem distinct_nonce_distinct_blob (S : Subtle) (k : CryptoKey) (plaintext : String)
    (iv1 iv2 : List Byte) (h1 : iv1.length = 12) (h2 : iv2.length = 12) (hne : iv1 ≠ iv2) :
    ∃ blob1 blob2, encryptText S k iv1 plaintext = some blob1 ∧
      encryptText S k iv2 plaintext = some blob2 ∧
      (atob blob1).map (fun s => (charCodes s).take 12) = some iv1 ∧
      (atob blob2).map (fun s => (charCodes s).take 12) = some iv2 ∧
      blob1 ≠ blob2 := by
  obtain ⟨b1, e1, a1⟩ := atob_btoa (iv1 ++ S.aesEncrypt k iv1 (textEncode plaintext))
  obtain ⟨b2, e2, a2⟩ := atob_btoa (iv2 ++ S.aesEncrypt k iv2 (textEncode plaintext))
  refine ⟨b1, b2, e1, e2, ?_, ?_, ?_⟩
  · rw [a1, Option.map_some', charCodes_fromCharCode, List.take_left' h1]
  · rw [a2, Option.map_some', charCodes_fromCharCode, List.take_left' h2]
  · intro hb
    have hbuf := btoa_fromCharCode_injective
      (iv1 ++ S.aesEncrypt k iv1 (textEncode plaintext))
      (iv2 ++ S.aesEncrypt k iv2 (textEncode plaintext)) (by rw [e1, e2, hb])
    have ht := congrArg (List.take 12) hbuf
    rw [List.take_left' h1, List.take_left' h2] at ht
    exact hne ht

/-- C10, witness: the claim for "hello" and two nonces that differ in their last byte. -/
theorem distinct_nonce_distinct_blob_witness :
    ([1, 2, 3, 4, 5, 6, 7, 8, 9, 10, 11, 12] : List Byte).length = 12 ∧
    ([1, 2, 3, 4, 5, 6, 7, 8, 9, 10, 11, 13] : List Byte).length = 12 ∧
    ([1, 2, 3, 4, 5, 6, 7, 8, 9, 10, 11, 12] : List Byte) ≠
      [1, 2, 3, 4, 5, 6, 7, 8, 9, 10, 11, 13] ∧
    ∃ blob1 blob2,
      encryptText toySubtle (deriveKey toySubtle "secret42" "orbit")
        [1, 2, 3, 4, 5, 6, 7, 8, 9, 10, 11, 12] "hello" = some blob1 ∧
      encryptText toySubtle (deriveKey toySubtle "secret42" "orbit")
        [1, 2, 3, 4, 5, 6, 7, 8, 9, 10, 11, 13] "hello" = some blob2 ∧
      (atob blob1).map (fun s => (charCodes s).take 12) =
        some [1, 2, 3, 4, 5, 6, 7, 8, 9, 10, 11, 12] ∧
      (atob blob2).map (fun s => (charCodes s).take 12) =
        some [1, 2, 3, 4, 5, 6, 7, 8, 9, 10, 11, 13] ∧
      blob1 ≠ blob2 :=
  ⟨by decide, by decide, by decide,
    distinct_nonce_distinct_blob toySubtle (deriveKey toySubtle "secret42" "orbit") "hello"
      [1, 2, 3, 4, 5, 6, 7, 8, 9, 10, 11, 12] [1, 2, 3, 4, 5, 6, 7, 8, 9, 10, 11, 13]
      (by decide) (by decide) (by decide)⟩

/-! ## The session invariant and the text send path -/

theorem SessionInv_of_eq (w v : World) (h : sessionView v = sessionView w)
    (hinv : SessionInv w) : SessionInv v := by
  simp only [sessionView, Prod.mk.injEq] at h
  obtain ⟨h1, h2, h3, h4⟩ := h
  unfold SessionInv at *
  rw [h1, h2, h3, h4]
  exact hinv

theorem attachBubble_session (w : World) (b : Bubble) (self : Bool) (id : JVal) :
    sessionView (attachBubble w b self id) = sessionView w := by
  simp only [sessionView, attachBubble]
  split <;> rfl

theorem appendFileBubble_session (w w1 : World) (name data filename ts : JVal) (self : Bool)
    (id : JVal) (h : appendFileBubble w name data filename ts self id = some w1) :
    sessionView w1 = sessionView w := by
  cases data <;> simp [appendFileBubble] at h
  subst h
  exact attachBubble_session _ _ _ _

theorem notify_session (w : World) (title body : String) :
    sessionView (notify w title body) = sessionView w := by
  unfold notify
  split <;> rfl

theorem wsSend_session (w w1 : World) (frame : Frame) (h : wsSend w frame = some w1) :
    sessionView w1 = sessionView w := by
  unfold wsSend at h
  split at h
  · cases h
  · rename_i c hc
    split at h
    · cases h
    · split at h <;> (cases h; simp [sessionView, hc])

theorem updateUsers_session (w w1 : World) (list : JVal) (h : updateUsers w list = some w1) :
    sessionView w1 = sessionView w := by
  cases list <;> simp [updateUsers] at h
  subst h
  rfl

theorem onmessage_session (S : Subtle) (w : World) (data : Inbound) :
    sessionView (onmessage S w data).world = sessionView w := by
  by_cases h1 : data.type = .str "users"
  · rw [onmessage_users S w data h1]
    cases h : updateUsers w data.list with
    | none => rfl
    | some w1 => exact updateUsers_session w w1 _ h
  by_cases h2 : data.type = .str "presence"
  · rw [onmessage_presence S w data h2]; rfl
  by_cases h3 : data.type = .str "typing"
  · rw [onmessage_typing S w data h3]; rfl
  by_cases h4 : data.type = .str "message"
  · simp only [onmessage, h4]
    simp only [JVal.str.injEq, String.reduceEq, if_false, if_true, reduceCtorEq]
    have ha := attachBubble_session w
      { self := false, fileCard := false, name := data.name.toStr, ts := data.ts,
        body := .text (displayText S w.state data.text data.encrypted).toTextContent }
      false data.messageId
    have hn := notify_session (appendTextBubble w data.name
      (displayText S w.state data.text data.encrypted) data.ts false data.messageId)
      data.name.toStr (displayText S w.state data.text data.encrypted).toBody
    split
    · rename_i w3 h
      exact (wsSend_session _ _ _ h).trans (hn.trans ha)
    · exact hn.trans ha
  by_cases h5 : data.type = .str "file"
  · simp only [onmessage, h5]
    simp only [JVal.str.injEq, String.reduceEq, if_false, if_true, reduceCtorEq]
    split
    · rfl
    · rename_i w1 hf
      have ha := appendFileBubble_session _ _ _ _ _ _ _ _ hf
      have hn := notify_session w1 data.name.toStr ("Sent file: " ++ data.filename.toStr)
      split
      · rename_i w3 h
        exact (wsSend_session _ _ _ h).trans (hn.trans ha)
      · exact hn.trans ha
  by_cases h6 : data.type = .str "seen"
  · rw [onmessage_seen S w data h6]
    cases mapGet w.state.myMsgs data.messageId <;> rfl
  by_cases h7 : data.type = .str "error"
  · rw [onmessage_error S w data h7]; rfl
  rw [onmessage_unknown S w data h1 h2 h3 h4 h5 h6 h7]

theorem renderHistory_session (S : Subtle) (items : List HistoryItem) (w : World) :
    sessionView (renderHistory S w items) = sessionView w := by
  induction items generalizing w with
  | nil => rfl
  | cons m rest ih =>
    unfold renderHistory
    split
    · split
      · rfl
      · rename_i w1 hf
        exact (ih w1).trans (appendFileBubble_session _ _ _ _ _ _ _ _ hf)
    · exact (ih _).trans (attachBubble_session w
        { self := (m.sender == .str w.state.name), fileCard := false, name := m.sender.toStr,
          ts := m.ts,
          body := .text (displayText S w.state m.message m.encrypted).toTextContent }
        (m.sender == .str w.state.name) .null)

theorem sendMessage_session (S : Subtle) (w : World) (id ts : String) (iv : List Byte) :
    sessionView (sendMessage S w id ts iv).world = sessionView w := by
  unfold sendMessage
  simp only
  split
  · rfl
  split
  · rfl
  rename_i frame _
  split
  · rfl
  · rename_i w1 hs
    have h1 := wsSend_session _ _ _ hs
    have ha := attachBubble_session w1
      { self := true, fileCard := false, name := (JVal.str w1.state.name).toStr,
        ts := .str ts,
        body := .text (JVal.str (if w1.state.e2e then "[You: Encrypted]"
          else jsTrim w.messageInput)).toTextContent } true (.str id)
    exact Eq.trans (by rfl) (ha.trans h1)

theorem onInput_session (w : World) : sessionView (onInput w).world = sessionView w := by
  unfold onInput
  split
  · split
    · rename_i w1 hs
      exact wsSend_session _ _ _ hs
    · rfl
  · rfl

theorem onFileChange_session (w : World) (f : Option FileInfo) :
    sessionView (onFileChange w f) = sessionView w := by
  unfold onFileChange
  split
  · rfl
  · split
    · rfl
    · split <;> rfl

theorem readerOnload_session (w : World) (result id ts : String) :
    sessionView (readerOnload w result id ts).world = sessionView w := by
  unfold readerOnload
  split
  · rfl
  · simp only
    split
    · rfl
    · rename_i w1 hs
      have h1 : sessionView w1 = sessionView w := (wsSend_session _ _ _ hs).trans rfl
      split
      · exact h1
      · rename_i w2 hf
        have ha := appendFileBubble_session _ _ _ _ _ _ _ _ hf
        exact Eq.trans (by rfl) (ha.trans h1)

theorem foldl_runTimer_session (l : List Timer) (w : World) :
    sessionView (l.foldl runTimer w) = sessionView w := by
  induction l generalizing w with
  | nil => rfl
  | cons t ts ih =>
    rw [List.foldl_cons, ih]
    cases ha : t.action <;> simp [runTimer, ha, sessionView]

theorem advanceTo_session (w : World) (t : Nat) :
    sessionView (advanceTo w t) = sessionView w := by
  unfold advanceTo
  split
  · rfl
  · exact foldl_runTimer_session
      ((w.timers.filter fun x => decide (x.due ≤ t)).insertionSort fun a b => a.due ≤ b.due)
      { w with timers := w.timers.filter fun x => decide (t < x.due) }

/-- A page whose join card is hidden and whose key matches its E2E setting satisfies the
invariant. -/
theorem SessionInv_intro (v : World) (hc : v.joinCardHidden = true)
    (hk : v.state.e2e = true → v.state.key.isSome = true) : SessionInv v :=
  fun _ => ⟨hc, hk⟩

theorem renderHistory_fields (S : Subtle) (items : List HistoryItem) (w : World) :
    (renderHistory S w items).joinCardHidden = w.joinCardHidden ∧
    (renderHistory S w items).state.e2e = w.state.e2e ∧
    (renderHistory S w items).state.key = w.state.key := by
  have h := renderHistory_session S items w
  simp only [sessionView, Prod.mk.injEq] at h
  exact ⟨h.2.1, h.2.2.1, h.2.2.2⟩

/-- A click on `#join` while no socket is held keeps the invariant: a refused click
leaves `ws` empty, an accepted one hides the card and derives the key when E2E is on. -/
theorem SessionInv_join (S : Subtle) (w : World) (room name password : String) (e2e : Bool)
    (history : Option (List HistoryItem)) (hws : w.ws = none) :
    SessionInv (join S w room name password e2e history) := by
  cases history with
  | none =>
    unfold join
    simp only
    split
    · intro h
      simp [alert, hws] at h
    split
    · intro h
      simp [alert, hws] at h
    · apply SessionInv_intro
      · rfl
      · cases e2e <;> simp
  | some items =>
    unfold join
    simp only
    split
    · intro h
      simp [alert, hws] at h
    split
    · intro h
      simp [alert, hws] at h
    · apply SessionInv_intro
      · exact (renderHistory_fields S items _).1
      · show (renderHistory S _ items).state.e2e = true →
          (renderHistory S _ items).state.key.isSome = true
        rw [(renderHistory_fields S items _).2.1, (renderHistory_fields S items _).2.2]
        cases e2e <;> simp

theorem SessionInv_step (S : Subtle) (w : World) (a : Action) (hinv : SessionInv w) :
    SessionInv (step S w a) := by
  cases a with
  | join room name password e2e history =>
    simp only [step]
    split
    · exact hinv
    · rename_i hshown
      have hws : w.ws = none := by
        cases hw : w.ws with
        | none => rfl
        | some c =>
          have := (hinv (by simp [hw])).1
          exact absurd this hshown
      exact SessionInv_join S w room name password e2e history hws
  | socketOpen =>
    simp only [step]
    split
    · rename_i c hc
      split
      · exact SessionInv_of_eq w _ (by simp [sessionView, hc]) hinv
      · exact hinv
    · exact hinv
  | socketClose =>
    simp only [step]
    split
    · rename_i c hc
      exact SessionInv_of_eq w _ (by simp [sessionView, hc]) hinv
    · exact hinv
  | inbound data =>
    simp only [step]
    split
    · exact SessionInv_of_eq w _ (onmessage_session S w data) hinv
    · exact hinv
  | input value =>
    exact SessionInv_of_eq w _ (onInput_session { w with messageInput := value }) hinv
  | send id ts iv => exact SessionInv_of_eq w _ (sendMessage_session S w id ts iv) hinv
  | fileChange f => exact SessionInv_of_eq w _ (onFileChange_session w f) hinv
  | fileLoaded result id ts =>
    exact SessionInv_of_eq w _ (readerOnload_session w result id ts) hinv
  | visibility hidden => exact SessionInv_of_eq w _ rfl hinv
  | permission granted => exact SessionInv_of_eq w _ rfl hinv
  | advance t => exact SessionInv_of_eq w _ (advanceTo_session w t) hinv

theorem SessionInv_run (S : Subtle) (actions : List Action) (w : World)
    (hinv : SessionInv w) : SessionInv (run S w actions) := by
  induction actions generalizing w with
  | nil => exact hinv
  | cons a rest ih => exact ih (step S w a) (SessionInv_step S w a hinv)

/-- On every page the handlers reach, an open connection with E2E enabled has a key. -/
theorem key_held_of_reachable (S : Subtle) (w : World) (h : Reachable S w)
    (he2e : w.state.e2e = true) (hopen : wsOpen w = true) :
    ∃ k, w.state.key = some k := by
  obtain ⟨actions, rfl⟩ := h
  have hinv : SessionInv (run S initialWorld actions) :=
    SessionInv_run S actions initialWorld (fun h => by cases h)
  obtain ⟨c, hc, -⟩ := (wsOpen_iff _).1 hopen
  have hk := (hinv (by simp [hc])).2 he2e
  exact Option.isSome_iff_exists.1 hk

/-- The base64 text is at least as long as the buffer it encodes. -/
theorem encodeTriples_length_le : ∀ (bs : List Nat), bs.length ≤ (encodeTriples bs).length
  | [] => Nat.le_refl 0
  | [_] => by simp [encodeTriples]
  | [_, _] => by simp [encodeTriples]
  | _ :: _ :: _ :: rest => by
    have ih := encodeTriples_length_le rest
    simp only [encodeTriples, List.length_cons]
    omega

/-- The base64 text of a buffer that is not empty is longer than the buffer. -/
theorem encodeTriples_length_lt : ∀ (bs : List Nat), bs ≠ [] →
    bs.length < (encodeTriples bs).length
  | [], h => absurd rfl h
  | [_], _ => by simp [encodeTriples]
  | [_, _], _ => by simp [encodeTriples]
  | _ :: _ :: _ :: rest, _ => by
    have ih := encodeTriples_length_le rest
    simp only [encodeTriples, List.length_cons]
    omega

/-- Every scalar value takes at least one byte. -/
theorem utf8EncodeCodePoint_length (c : Nat) : 1 ≤ (utf8EncodeCodePoint c).length := by
  unfold utf8EncodeCodePoint
  split
  · simp
  split
  · simp
  split <;> simp

/-- A string has at most as many characters as UTF-8 bytes. -/
theorem length_le_textEncode (s : String) : s.data.length ≤ (textEncode s).length := by
  unfold textEncode
  induction s.data with
  | nil => simp
  | cons c rest ih =>
    rw [List.flatMap_cons, List.length_append, List.length_cons]
    have := utf8EncodeCodePoint_length c.toNat
    omega

/-- When the ciphertext is not shorter than the plaintext bytes, the blob of a text that
is not empty is longer than the text, so it is not the text. -/
theorem blob_ne_plaintext (S : Subtle) (k : CryptoKey) (iv : List Byte) (text blob : String)
    (htext : text ≠ "")
    (hlen : (textEncode text).length ≤ (S.aesEncrypt k iv (textEncode text)).length)
    (hblob : encryptText S k iv text = some blob) : blob ≠ text := by
  rw [encryptText_eq] at hblob
  have hb := Option.some.inj hblob
  intro heq
  have hn : 1 ≤ text.data.length := by
    cases h : text.data with
    | nil =>
      exfalso
      apply htext
      cases text
      simp_all
    | cons _ _ => simp
  have hm := length_le_textEncode text
  have hne : (iv ++ S.aesEncrypt k iv (textEncode text)).map Fin.val ≠ [] := by
    intro h
    have := congrArg List.length h
    simp only [List.length_map, List.length_append, List.length_nil] at this
    omega
  have hlt := encodeTriples_length_lt _ hne
  simp only [List.length_map, List.length_append] at hlt
  have hl : blob.data.length = text.data.length := by rw [heq]
  rw [← hb] at hl
  simp only at hl
  omega

/-- C4: on every page reached through the join, send and inbound handlers (and the
other events of the page) on which E2E is enabled and the connection is open, a key is
held, and `sendMessage` with a non-blank text does not throw and transmits exactly one
`message` frame: its encrypted flag is 1, its text is the output of `encryptText` for
the trimmed text under the held key, and it carries the drawn id and timestamp. It is
never the plaintext: the frame is not the one the unencrypted path builds, and the blob
differs from the text as soon as the AES-GCM output is not shorter than its input. -/
theorem sendMessage_encrypts_when_e2e (S : Subtle) (w : World) (id ts : String)
    (iv : List Byte) (hreach : Reachable S w) (he2e : w.state.e2e = true)
    (hopen : wsOpen w = true) (htext : jsTrim w.messageInput ≠ "") :
    ∃ k blob, w.state.key = some k ∧
      encryptText S k iv (jsTrim w.messageInput) = some blob ∧
      (sendMessage S w id ts iv).threw = false ∧
      sentFrames (sendMessage S w id ts iv).world = sentFrames w ++ [.message blob ts 1 id] ∧
      sentFrames (sendMessage S w id ts iv).world ≠
        sentFrames w ++ [.message (jsTrim w.messageInput) ts 0 id] ∧
      ((textEncode (jsTrim w.messageInput)).length ≤
          (S.aesEncrypt k iv (textEncode (jsTrim w.messageInput))).length →
        blob ≠ jsTrim w.messageInput) := by
  obtain ⟨k, hk⟩ := key_held_of_reachable S w hreach he2e hopen
  obtain ⟨blob, hb, hthrew, hsent⟩ := sendMessage_with_key S w id ts iv k he2e hk hopen htext
  refine ⟨k, blob, hk, hb, hthrew, hsent, ?_, ?_⟩
  · rw [hsent]
    intro h
    have h1 := List.append_cancel_left h
    simp at h1
  · intro hlen
    exact blob_ne_plaintext S k iv _ blob htext hlen hb

/-- C4, witness: the claim on the page of a peer who joined with E2E and typed
"hello"; the stand-in ciphertext is one byte longer than its input. -/
theorem sendMessage_encrypts_when_e2e_witness :
    Reachable toySubtle (step toySubtle (e2eSession "secret42") (.input "hello")) ∧
    (step toySubtle (e2eSession "secret42") (.input "hello")).state.e2e = true ∧
    wsOpen (step toySubtle (e2eSession "secret42") (.input "hello")) = true ∧
    jsTrim (step toySubtle (e2eSession "secret42") (.input "hello")).messageInput ≠ "" ∧
    ∃ k blob,
      (step toySubtle (e2eSession "secret42") (.input "hello")).state.key = some k ∧
      encryptText toySubtle k [1, 2, 3, 4, 5, 6, 7, 8, 9, 10, 11, 12]
        (jsTrim (step toySubtle (e2eSession "secret42") (.input "hello")).messageInput)
          = some blob ∧
      sentFrames (sendMessage toySubtle (step toySubtle (e2eSession "secret42") (.input "hello"))
        "id-1" "t-1" [1, 2, 3, 4, 5, 6, 7, 8, 9, 10, 11, 12]).world =
        sentFrames (step toySubtle (e2eSession "secret42") (.input "hello")) ++
          [.message blob "t-1" 1 "id-1"] ∧
      blob ≠ jsTrim (step toySubtle (e2eSession "secret42") (.input "hello")).messageInput := by
  refine ⟨⟨[.join "orbit" "B" "secret42" true none, .socketOpen, .input "hello"], by decide⟩,
    by decide, by decide, by decide, ?_⟩
  obtain ⟨k, blob, hk, hb, -, hsent, -, hne⟩ :=
    sendMessage_encrypts_when_e2e toySubtle
      (step toySubtle (e2eSession "secret42") (.input "hello")) "id-1" "t-1"
      [1, 2, 3, 4, 5, 6, 7, 8, 9, 10, 11, 12]
      ⟨[.join "orbit" "B" "secret42" true none, .socketOpen, .input "hello"], by decide⟩
      (by decide) (by decide) (by decide)
  exact ⟨k, blob, hk, hb, hsent, hne (by simp [toySubtle])⟩

end CosmicChat
